import Mathlib

/-!
# relay29: ordered synthetic events for the group-moderation log

A shallow embedding of `utils.go`: the shared serial counter, its debounced
reset, the stamping loop `applyEvents` and the four public operations that
build drafts (`CreateGroup`, `PutUser`, `RemoveUserFromGroup`, `DeleteEvent`).

Go state is passed explicitly: `World` holds the package-level variables, the
latest request made to the debouncer and the log of calls received by the
relay's `AddEvent`; `State` holds the fields of the receiver that the code
reads.  Wall-clock readings (`nostr.Now()`) are arguments, in seconds.  `int64`
arithmetic wraps (`wrapInt64`).  The debounce timer belongs to a library: the
function handed to it (`fireReset`) may run at any step, and what is known about
when it runs is a hypothesis of the statement that needs it.

Two levels of execution are used.  A sequential history (`Action`, `run`) is a
list of whole `applyEvents` calls and timer steps.  An interleaving (`Tick`,
`tickRun`) is a list of the atomic steps of any number of calls: one pass of the
loop body, a call reaching the debouncer, the timer; every call is such a list
(`applyEvents_eq_tickRun`).
-/

namespace Relay29

/-! ## Data model -/

/-- A `nostr.Tag`: a list of strings. -/
abbrev Tag := List String

/-- The `nostr.Tags` type: an ordered list of tags. -/
abbrev Tags := List Tag

/-- Modelled from the spec: the record kinds named by the `nostr.KindSimpleGroup*`
constants, which are declared in the go-nostr library and not in the source
(spec section 3: create-group, edit-metadata, put-user, remove-user,
delete-event). `other` is every other integer kind. -/
inductive Kind where
  | SimpleGroupCreateGroup
  | SimpleGroupEditMetadata
  | SimpleGroupPutUser
  | SimpleGroupRemoveUser
  | SimpleGroupDeleteEvent
  | other (n : Int)
  deriving DecidableEq, Repr

/-- The fields of `nostr.Event`. A Go composite literal leaves the fields it
does not name at their zero value (`""`, `0`, `nil`). -/
structure Event where
  ID : String := ""
  PubKey : String := ""
  CreatedAt : Int := 0
  Kind : Kind := Kind.other 0
  Tags : Tags := []
  Content : String := ""
  Sig : String := ""
  deriving DecidableEq, Repr

/-- Modelled from the spec: the `EditMetadata` descriptor, declared elsewhere in
the repository; each field is a nullable pointer (spec section 3), `none` being
the nil pointer. -/
structure EditMetadata where
  NameValue : Option String := none
  AboutValue : Option String := none
  PictureValue : Option String := none
  PrivateValue : Option Bool := none
  ClosedValue : Option Bool := none
  deriving DecidableEq, Repr

/-- Go errors: a plain error value, or one built by `fmt.Errorf` with `%w`,
which keeps the wrapped error next to the formatted text. -/
inductive GoError where
  | plain (text : String)
  | wrap (text : String) (inner : GoError)
  deriving DecidableEq, Repr

/-- The `Error()` text of an error. -/
def GoError.Error : GoError → String
  | GoError.plain t => t
  | GoError.wrap t _ => t

/-- The `errors.Unwrap` result. -/
def GoError.Unwrap : GoError → Option GoError
  | GoError.plain _ => none
  | GoError.wrap _ e => some e

/-! ## Contexts -/

/-- Keys of context values. `internalCallContextKey` is the value `struct{}{}`;
Go compares keys as interface values, so every key of that type is equal to it. -/
inductive CtxKey where
  | emptyStruct
  | named (name : String)
  deriving DecidableEq, Repr

/-- Non-nil values stored in a context. -/
inductive CtxVal where
  | emptyStruct
  | val (v : String)
  deriving DecidableEq, Repr

/-- A `context.Context` as far as `Value` can observe it: the chain of
`WithValue` bindings, innermost first. A stored `none` is a stored nil. -/
abbrev Context := List (CtxKey × Option CtxVal)

/-- The `context.WithValue` constructor. -/
def Context.WithValue (ctx : Context) (k : CtxKey) (v : Option CtxVal) : Context :=
  (k, v) :: ctx

/-- The `ctx.Value(key)` lookup: the innermost binding of the key, nil when there is none. -/
def Context.Value : Context → CtxKey → Option CtxVal
  | [], _ => none
  | (k, v) :: rest, key => if k = key then v else Context.Value rest key

/-- The package variable `internalCallContextKey = struct{}{}`. -/
def internalCallContextKey : CtxKey := CtxKey.emptyStruct

/-- The function `IsInternalCall`: `ctx.Value(internalCallContextKey) != nil`. -/
def IsInternalCall (ctx : Context) : Bool :=
  (ctx.Value internalCallContextKey).isSome

/-! ## State -/

/-- One call received by the relay's `AddEvent`: the context and the record. -/
abbrev SinkCall := Context × Event

/-- The relay's `AddEvent`, an external collaborator: given the calls it has
received so far, the context and the record, it answers nil (`none`) or an error. -/
abbrev Sink := List SinkCall → Context → Event → Option GoError

/-- The fields of the receiver `*State` that `utils.go` reads. `γ` is the
group type; `Groups` is the lookup `s.Groups.Load(groupId)`, `none` being a nil
group pointer. -/
structure State (γ : Type) where
  publicKey : String
  Groups : String → Option γ
  AddEvent : Sink

/-- Methods of `nostr.Event` from the go-nostr library that `applyEvents` calls:
`GetID` and the `String()` used by the `%s` verb. -/
structure EventLib where
  GetID : Event → String
  EventString : Event → String

/-- The package-level variables and the relay's call log.
`applyEventsSerial` is the shared counter; `resetDeadline` records the latest
call of `applyEventsSerialResetDebounce`: the wall-clock second, 15 seconds
after that call, for which the reset was asked, `none` before any such call. -/
structure World where
  applyEventsSerial : Int := 0
  resetDeadline : Option Int := none
  calls : List SinkCall := []
  deriving DecidableEq, Repr

/-- Two's-complement wrap-around of `int64` arithmetic. -/
def wrapInt64 (x : Int) : Int :=
  (x + 2 ^ 63) % 2 ^ 64 - 2 ^ 63

/-- The debounce window `time.Second * 15`, in seconds. -/
def debounceSeconds : Int := 15

/-! ## applyEvents -/

/-- The body of the loop of `applyEvents` up to `evt.ID = evt.GetID()`: the
marker tag is appended, the counter is incremented and its new value added to
`CreatedAt`, an empty `PubKey` is defaulted, the id is computed last. -/
def stampEvent {γ : Type} (s : State γ) (lib : EventLib) (w : World) (evt : Event) :
    World × Event :=
  let evt1 := { evt with Tags := evt.Tags ++ [["autogenerated"]] }
  let serial := wrapInt64 (w.applyEventsSerial + 1)
  let evt2 := { evt1 with CreatedAt := wrapInt64 (evt1.CreatedAt + serial) }
  let evt3 := if evt2.PubKey = "" then { evt2 with PubKey := s.publicKey } else evt2
  let evt4 := { evt3 with ID := lib.GetID evt3 }
  ({ w with applyEventsSerial := serial }, evt4)

/-- The loop of `applyEvents`: each draft is stamped and handed to `AddEvent`;
the first error ends the call with a wrapped error. -/
def applyEventsLoop {γ : Type} (s : State γ) (lib : EventLib) (ourCtx : Context) :
    World → List Event → World × Option GoError
  | w, [] => (w, none)
  | w, evt :: rest =>
    let (w1, r) := stampEvent s lib w evt
    let w2 := { w1 with calls := w1.calls ++ [(ourCtx, r)] }
    match s.AddEvent w1.calls ourCtx r with
    | some err =>
      (w2, some (GoError.wrap
        ("failed to apply event " ++ lib.EventString r ++ ": " ++ err.Error) err))
    | none => applyEventsLoop s lib ourCtx w2 rest

/-- The method `applyEvents`. `now` is the wall-clock second at which the
debouncer is called after the loop; a call that fails returns before that. -/
def applyEvents {γ : Type} (s : State γ) (lib : EventLib) (w : World) (now : Int)
    (ctx : Context) (events : List Event) : World × Option GoError :=
  let ourCtx := ctx.WithValue internalCallContextKey (some CtxVal.emptyStruct)
  match applyEventsLoop s lib ourCtx w events with
  | (w1, some err) => (w1, some err)
  | (w1, none) => ({ w1 with resetDeadline := some (now + debounceSeconds) }, none)

/-- The function handed to the debouncer, `func() { applyEventsSerial.Store(0) }`,
run by the debouncer's timer. -/
def fireReset (w : World) : World :=
  { w with applyEventsSerial := 0 }

/-! ## The public operations -/

/-- The tag list `metadataTags` built by `CreateGroup`. -/
def metadataTags (groupId : String) (defs : EditMetadata) : Tags :=
  let t0 : Tags := [["h", groupId]]
  let t1 := match defs.NameValue with
    | some v => t0 ++ [["name", v]]
    | none => t0
  let t2 := match defs.AboutValue with
    | some v => t1 ++ [["about", v]]
    | none => t1
  let t3 := match defs.PictureValue with
    | some v => t2 ++ [["picture", v]]
    | none => t2
  let t4 := match defs.ClosedValue with
    | some b => if b then t3 ++ [["closed"]] else t3 ++ [["open"]]
    | none => t3
  let t5 := match defs.PrivateValue with
    | some b => if b then t4 ++ [["private"]] else t4 ++ [["public"]]
    | none => t4
  t5

/-- The two drafts that `CreateGroup` passes to `applyEvents`; `t1` and `t2`
are the two readings of `nostr.Now()`. -/
def createGroupDrafts (groupId creator : String) (defs : EditMetadata) (t1 t2 : Int) :
    List Event :=
  [ { CreatedAt := t1, Kind := Kind.SimpleGroupCreateGroup, Tags := [["h", groupId]],
      PubKey := creator },
    { CreatedAt := t2, Kind := Kind.SimpleGroupEditMetadata, Tags := metadataTags groupId defs } ]

/-- The method `CreateGroup`. -/
def CreateGroup {γ : Type} (s : State γ) (lib : EventLib) (w : World) (t1 t2 now : Int)
    (ctx : Context) (groupId creator : String) (defs : EditMetadata) :
    World × Option GoError :=
  match s.Groups groupId with
  | some _ => (w, some (GoError.plain ("group \x27" ++ groupId ++ "\x27 already exists")))
  | none => applyEvents s lib w now ctx (createGroupDrafts groupId creator defs t1 t2)

/-- The draft that `PutUser` passes to `applyEvents`. -/
def putUserDrafts (groupId pubkey : String) (roles : List String) (t : Int) : List Event :=
  let userTag : Tag := ["p", pubkey]
  let userTag := userTag ++ roles
  [ { CreatedAt := t, Kind := Kind.SimpleGroupPutUser, Tags := [["h", groupId], userTag] } ]

/-- The method `PutUser`. -/
def PutUser {γ : Type} (s : State γ) (lib : EventLib) (w : World) (t now : Int)
    (ctx : Context) (groupId pubkey : String) (roles : List String) :
    World × Option GoError :=
  applyEvents s lib w now ctx (putUserDrafts groupId pubkey roles t)

/-- The draft that `RemoveUserFromGroup` passes to `applyEvents`. -/
def removeUserDrafts (groupId pubkey : String) (t : Int) : List Event :=
  [ { CreatedAt := t, Kind := Kind.SimpleGroupRemoveUser,
      Tags := [["h", groupId], ["p", pubkey]] } ]

/-- The method `RemoveUserFromGroup`. -/
def RemoveUserFromGroup {γ : Type} (s : State γ) (lib : EventLib) (w : World) (t now : Int)
    (ctx : Context) (groupId pubkey : String) : World × Option GoError :=
  applyEvents s lib w now ctx (removeUserDrafts groupId pubkey t)

/-- The draft that `DeleteEvent` passes to `applyEvents`. -/
def deleteEventDrafts (groupId eventId : String) (t : Int) : List Event :=
  [ { CreatedAt := t, Kind := Kind.SimpleGroupDeleteEvent,
      Tags := [["h", groupId], ["e", eventId]] } ]

/-- The method `DeleteEvent`. -/
def DeleteEvent {γ : Type} (s : State γ) (lib : EventLib) (w : World) (t now : Int)
    (ctx : Context) (groupId eventId : String) : World × Option GoError :=
  applyEvents s lib w now ctx (deleteEventDrafts groupId eventId t)

/-! ## Observations used by the statements -/

/-- The records handed to the relay between world `w` and a later world `w1`,
in the order of the calls. -/
def handed (w w1 : World) : List Event :=
  (w1.calls.drop w.calls.length).map Prod.snd

/-- The context under which `applyEvents` calls the relay. -/
def ourCtx (ctx : Context) : Context :=
  ctx.WithValue internalCallContextKey (some CtxVal.emptyStruct)

/-- The records obtained by stamping the drafts one after the other, starting
from counter value `serial`. -/
def stampedRecords {γ : Type} (s : State γ) (lib : EventLib) (serial : Int) :
    List Event → List Event
  | [] => []
  | e :: es =>
    (stampEvent s lib { applyEventsSerial := serial } e).2 ::
      stampedRecords s lib (wrapInt64 (serial + 1)) es

/-- The nominal timestamp of each draft plus the value the counter takes at the
draft's own increment, counted in the integers from `serial`. -/
def nominalPlusCounter (serial : Int) : List Event → List Int
  | [] => []
  | e :: es => (e.CreatedAt + (serial + 1)) :: nominalPlusCounter (serial + 1) es

/-! ## Sequential histories -/

/-- One event of a sequential history of the process: a call of `applyEvents`
run without interruption (its caller context, its drafts, the second at which it
calls the debouncer) or the debounce timer running the reset at second `t`. -/
inductive Action where
  | call (ctx : Context) (events : List Event) (now : Int)
  | reset (t : Int)

/-- The world after one action. -/
def step {γ : Type} (s : State γ) (lib : EventLib) (w : World) : Action → World
  | Action.call ctx events now => (applyEvents s lib w now ctx events).1
  | Action.reset _ => fireReset w

/-- The world after a history. -/
def run {γ : Type} (s : State γ) (lib : EventLib) : World → List Action → World
  | w, [] => w
  | w, a :: rest => run s lib (step s lib w a) rest

/-- The `CreatedAt` values of the records the relay has received, in the order
of the calls. -/
def createdAts (w : World) : List Int :=
  w.calls.map (fun c => c.2.CreatedAt)

/-- Record `r` is draft `d` as `applyEvents` leaves it apart from `CreatedAt`
and `ID`: the tags of the draft followed by the marker tag, the kind, content
and signature of the draft, and the public key of the draft or, when that is
empty, of the relay. -/
def StampedFrom {γ : Type} (s : State γ) (d r : Event) : Prop :=
  r.Tags = d.Tags ++ [["autogenerated"]] ∧ r.Kind = d.Kind ∧ r.Content = d.Content ∧
    r.Sig = d.Sig ∧ r.PubKey = (if d.PubKey = "" then s.publicKey else d.PubKey)

/-- Record `r` carries the tags of draft `d` followed by the one marker tag, the
kind and content of `d`, and no signature. -/
def MarkedUnsigned (d r : Event) : Prop :=
  r.Tags = d.Tags ++ [["autogenerated"]] ∧ r.Kind = d.Kind ∧ r.Content = d.Content ∧
    r.Sig = ""

/-! ## Interleavings of calls -/

/-- One atomic step of an interleaving of any number of `applyEvents` calls with
the debounce timer, taken at wall-clock second `t`: one pass of the loop body by
some call (the draft is stamped, which increments the counter, and handed to
the relay), some call reaching the debouncer after its loop, or the timer
running the reset. -/
inductive Tick where
  | stamp (t : Int) (ctx : Context) (evt : Event)
  | arm (t : Int)
  | reset (t : Int)

/-- The world after one step of an interleaving. -/
def tickStep {γ : Type} (s : State γ) (lib : EventLib) (w : World) : Tick → World
  | Tick.stamp _ ctx evt => (applyEventsLoop s lib (ourCtx ctx) w [evt]).1
  | Tick.arm t => { w with resetDeadline := some (t + debounceSeconds) }
  | Tick.reset _ => fireReset w

/-- The world after an interleaving. -/
def tickRun {γ : Type} (s : State γ) (lib : EventLib) : World → List Tick → World
  | w, [] => w
  | w, tick :: rest => tickRun s lib (tickStep s lib w tick) rest

/-- For each stamping step of an interleaving, in order: the wall-clock second
of the step and the counter offset it receives, the value returned by its own
`applyEventsSerial.Add(1)`. -/
def offsetLog {γ : Type} (s : State γ) (lib : EventLib) : World → List Tick → List (Int × Int)
  | _, [] => []
  | w, Tick.stamp t ctx evt :: rest =>
    (t, (stampEvent s lib w evt).1.applyEventsSerial) ::
      offsetLog s lib (tickStep s lib w (Tick.stamp t ctx evt)) rest
  | w, Tick.arm t :: rest => offsetLog s lib (tickStep s lib w (Tick.arm t)) rest
  | w, Tick.reset t :: rest => offsetLog s lib (tickStep s lib w (Tick.reset t)) rest

/-- The wall clock never goes backwards along the interleaving, `clock` being
the reading at its start. -/
def ticksMonotone : Int → List Tick → Prop
  | _, [] => True
  | clock, Tick.stamp t _ _ :: rest => clock ≤ t ∧ ticksMonotone t rest
  | clock, Tick.arm t :: rest => clock ≤ t ∧ ticksMonotone t rest
  | clock, Tick.reset t :: rest => clock ≤ t ∧ ticksMonotone t rest

/-- Every timer step of the interleaving is taken in a later second than the
stamping steps before it, `lastStamp` being the latest one before the
interleaving. -/
def resetsAfterStamps : Option Int → List Tick → Prop
  | _, [] => True
  | _, Tick.stamp t _ _ :: rest => resetsAfterStamps (some t) rest
  | lastStamp, Tick.arm _ :: rest => resetsAfterStamps lastStamp rest
  | lastStamp, Tick.reset t :: rest =>
    (∀ c, lastStamp = some c → c < t) ∧ resetsAfterStamps lastStamp rest

/-- The number of stamping steps of an interleaving. -/
def stampCount : List Tick → Nat
  | [] => 0
  | Tick.stamp _ _ _ :: rest => stampCount rest + 1
  | Tick.arm _ :: rest => stampCount rest
  | Tick.reset _ :: rest => stampCount rest

/-- The steps of one call of `applyEvents` that makes `k` passes of its loop at
second `now` and reaches the debouncer when `armed`. -/
def callTicks (ctx : Context) (events : List Event) (now : Int) (k : Nat) (armed : Bool) :
    List Tick :=
  (events.take k).map (fun e => Tick.stamp now ctx e) ++ (if armed then [Tick.arm now] else [])

/-- What the stamps logged so far must satisfy for the next offsets to be new:
each was taken no later than `clock`, and either its offset is at most the
counter or it was taken before `clock`; all were taken no later than `lastStamp`. -/
def OffsetInv (w : World) (clock : Int) (lastStamp : Option Int) (log : List (Int × Int)) :
    Prop :=
  0 ≤ w.applyEventsSerial ∧ log.Nodup ∧
    (∀ p ∈ log, p.1 ≤ clock ∧ (p.2 ≤ w.applyEventsSerial ∨ p.1 < clock)) ∧
    (∀ p ∈ log, ∃ l, lastStamp = some l ∧ p.1 ≤ l)

/-- The number of stamping steps since the most recent reset, `n` being that
number before the interleaving. -/
def stampsSinceReset {γ : Type} (s : State γ) (lib : EventLib) :
    World → Nat → List Tick → Nat
  | _, n, [] => n
  | w, n, Tick.stamp t ctx evt :: rest =>
    stampsSinceReset s lib (tickStep s lib w (Tick.stamp t ctx evt)) (n + 1) rest
  | w, n, Tick.arm t :: rest => stampsSinceReset s lib (tickStep s lib w (Tick.arm t)) n rest
  | w, _, Tick.reset t :: rest =>
    stampsSinceReset s lib (tickStep s lib w (Tick.reset t)) 0 rest

/-- For each stamping step, in order, its 1-based position among the stamping
steps since the most recent reset. -/
def positionLog {γ : Type} (s : State γ) (lib : EventLib) :
    World → Nat → List Tick → List Int
  | _, _, [] => []
  | w, n, Tick.stamp t ctx evt :: rest =>
    ((n : Int) + 1) :: positionLog s lib (tickStep s lib w (Tick.stamp t ctx evt)) (n + 1) rest
  | w, n, Tick.arm t :: rest => positionLog s lib (tickStep s lib w (Tick.arm t)) n rest
  | w, _, Tick.reset t :: rest =>
    positionLog s lib (tickStep s lib w (Tick.reset t)) 0 rest

/-- The drafts of the stamping steps of an interleaving, in stamping order. -/
def tickDrafts : List Tick → List Event
  | [] => []
  | Tick.stamp _ _ evt :: rest => evt :: tickDrafts rest
  | Tick.arm _ :: rest => tickDrafts rest
  | Tick.reset _ :: rest => tickDrafts rest

/-- The drafts are stamped in the order in which they were built: each draft
that is stamped was built no earlier than `built`, the second in which the
draft stamped before it was built or, if later, the second of the latest reset,
and no later than the second of its own stamping step; and no reset comes before
the second in which the draft stamped before it was built. Calls that overlap
each other or a reset need not satisfy this. -/
def stampedInBuildOrder : Int → List Tick → Prop
  | _, [] => True
  | built, Tick.stamp t _ evt :: rest =>
    built ≤ evt.CreatedAt ∧ evt.CreatedAt ≤ t ∧ stampedInBuildOrder evt.CreatedAt rest
  | built, Tick.arm _ :: rest => stampedInBuildOrder built rest
  | built, Tick.reset t :: rest => built ≤ t ∧ stampedInBuildOrder t rest

/-- Every reset of the interleaving comes 15 seconds or more after the latest
step of a call before it (a stamping step or a call of the debouncer),
`lastStep` being the second of the latest such step before the interleaving. -/
def resetsLateTicks : Option Int → List Tick → Prop
  | _, [] => True
  | _, Tick.stamp t _ _ :: rest => resetsLateTicks (some t) rest
  | _, Tick.arm t :: rest => resetsLateTicks (some t) rest
  | lastStep, Tick.reset t :: rest =>
    (∀ c, lastStep = some c → c + debounceSeconds ≤ t) ∧ resetsLateTicks lastStep rest

/-- The counter stands at `bound` or less whenever a reset of the interleaving
runs. -/
def resetsBoundedTicks {γ : Type} (s : State γ) (lib : EventLib) (bound : Int) :
    World → List Tick → Prop
  | _, [] => True
  | w, Tick.stamp t ctx evt :: rest =>
    resetsBoundedTicks s lib bound (tickStep s lib w (Tick.stamp t ctx evt)) rest
  | w, Tick.arm t :: rest => resetsBoundedTicks s lib bound (tickStep s lib w (Tick.arm t)) rest
  | w, Tick.reset t :: rest =>
    w.applyEventsSerial ≤ bound ∧
      resetsBoundedTicks s lib bound (tickStep s lib w (Tick.reset t)) rest

/-- The invariant that keeps the log ordered along an interleaving: the counter
is not negative, every logged `CreatedAt` is at most `built` plus the counter,
the log is strictly increasing, and unless the counter is zero the latest step
of a call was taken at a second between `built` and the clock. -/
def OrderInv (w : World) (clock built : Int) (lastStep : Option Int) : Prop :=
  0 ≤ built ∧ 0 ≤ w.applyEventsSerial ∧
    (∀ x ∈ createdAts w, x ≤ built + w.applyEventsSerial) ∧
    List.Pairwise (fun a b => a < b) (createdAts w) ∧
    ((∃ c, lastStep = some c ∧ built ≤ c ∧ c ≤ clock) ∨ w.applyEventsSerial = 0)

/-! ## Concrete inputs -/

/-- A relay whose `AddEvent` accepts every record, with one known group. -/
def demoState : State Unit where
  publicKey := "relaykey"
  Groups := fun g => if g = "known" then some () else none
  AddEvent := fun _ _ _ => none

/-- A stand-in for the go-nostr methods. -/
def demoLib : EventLib where
  GetID := fun e => e.PubKey ++ "/" ++ e.Content
  EventString := fun e => e.ID

/-- A relay whose `AddEvent` rejects the second record it receives and accepts
every other one. -/
def rejectSecond : State Unit where
  publicKey := "relaykey"
  Groups := fun _ => none
  AddEvent := fun received _ _ =>
    if received.length = 1 then some (GoError.plain "rejected") else none

/-- The second record handed to the relay when `demoState` creates the group
"new" with `ClosedValue` present and true. -/
def closedGroupRecord : Event :=
  (handed {} (CreateGroup demoState demoLib {} 1000 1000 1000 [] "new" "creator"
    { ClosedValue := some true }).1).getD 1 {}

/-- A `PutUser` call returns in second 1000 and arms the reset for second 1015;
a second `PutUser` is stamped in second 1015 and has not reached the debouncer
(its record is the one `rejectSecond` rejects, so it never will) when the timer
runs in that second; a `CreateGroup` batch is then stamped in the same second. -/
def staleTimerTicks : List Tick :=
  [ Tick.stamp 1000 [] ((putUserDrafts "g" "abc" [] 1000).getD 0 {}),
    Tick.arm 1000,
    Tick.stamp 1015 [] ((putUserDrafts "g" "def" [] 1015).getD 0 {}),
    Tick.reset 1015,
    Tick.stamp 1015 [] ((createGroupDrafts "new" "creator" {} 1015 1015).getD 0 {}),
    Tick.stamp 1015 [] ((createGroupDrafts "new" "creator" {} 1015 1015).getD 1 {}),
    Tick.arm 1015 ]

/-- The sequential history whose steps are `staleTimerTicks`: the second call
fails at the relay. -/
def staleTimerHistory : List Action :=
  [ Action.call [] (putUserDrafts "g" "abc" [] 1000) 1000,
    Action.call [] (putUserDrafts "g" "def" [] 1015) 1015,
    Action.reset 1015,
    Action.call [] (createGroupDrafts "new" "creator" {} 1015 1015) 1015 ]

/-- Two batches stamped in second 1000 and one in second 1020, each reaching the
debouncer, with the timer running in second 1016. -/
def quietTicks : List Tick :=
  [ Tick.stamp 1000 [] ((putUserDrafts "g" "abc" [] 1000).getD 0 {}),
    Tick.stamp 1000 [] ((putUserDrafts "g" "def" [] 1000).getD 0 {}),
    Tick.arm 1000,
    Tick.arm 1001,
    Tick.reset 1016,
    Tick.stamp 1020 [] ((putUserDrafts "g" "abc" [] 1020).getD 0 {}),
    Tick.arm 1020 ]

/-- A `PutUser` call that returns nil in second 1000, then a `PutUser` call in
second 1014 whose record `rejectSecond` rejects. -/
def failedCallHistory : List Action :=
  [ Action.call [] (putUserDrafts "g" "abc" [] 1000) 1000,
    Action.call [] (putUserDrafts "g" "def" [] 1014) 1014 ]

/-- A `PutUser` call returns in second 1000 and arms the reset for second 1015;
in second 1015 a `CreateGroup` call stamps and submits its first draft, the
timer runs while that submission is under way, and the call then stamps its
second draft and returns. -/
def midBatchTicks : List Tick :=
  [ Tick.stamp 1000 [] ((putUserDrafts "g" "abc" [] 1000).getD 0 {}),
    Tick.arm 1000,
    Tick.stamp 1015 [] ((createGroupDrafts "new" "creator" {} 1015 1015).getD 0 {}),
    Tick.reset 1015,
    Tick.stamp 1015 [] ((createGroupDrafts "new" "creator" {} 1015 1015).getD 1 {}),
    Tick.arm 1015 ]

/-- Eight `CreateGroup` batches stamped one after the other in second 1000
(sixteen drafts), each returning nil, the reset 15 seconds after the last of
them, then one `PutUser` batch. -/
def burstTicks : List Tick :=
  (List.replicate 8 (callTicks [] (createGroupDrafts "g" "creator" {} 1000 1000) 1000 2 true)).flatten ++
    Tick.reset 1015 :: callTicks [] (putUserDrafts "g" "abc" [] 1015) 1015 1 true

/-- Two calls that overlap, no reset: `CreateGroup` builds its two drafts in
second 1000 and stamps the first; a `PutUser` call builds its draft in second
1001 and stamps it; `CreateGroup` then stamps its second draft. -/
def overlapTicks : List Tick :=
  [ Tick.stamp 1000 [] ((createGroupDrafts "new" "creator" {} 1000 1000).getD 0 {}),
    Tick.stamp 1001 [] ((putUserDrafts "g" "abc" [] 1001).getD 0 {}),
    Tick.stamp 1001 [] ((createGroupDrafts "new" "creator" {} 1000 1000).getD 1 {}),
    Tick.arm 1001,
    Tick.arm 1001 ]

/-- One `CreateGroup` batch in second 1000, the reset 15 seconds later, then one
`PutUser` batch. -/
def shortBurstTicks : List Tick :=
  callTicks [] (createGroupDrafts "g" "creator" {} 1000 1000) 1000 2 true ++
    Tick.reset 1015 :: callTicks [] (putUserDrafts "g" "abc" [] 1015) 1015 1 true

/-- A call stamps a draft in second 1000 and returns nil; in second 1015 the
timer it armed expires; a second call, stamped in that second, returns nil and
calls the debouncer again; the function of the expired timer then runs. -/
def expiredTimerTicks : List Tick :=
  [ Tick.stamp 1000 [] ((putUserDrafts "g" "abc" [] 1000).getD 0 {}),
    Tick.arm 1000,
    Tick.stamp 1015 [] ((putUserDrafts "g" "def" [] 1015).getD 0 {}),
    Tick.arm 1015,
    Tick.reset 1015 ]

/-- A stand-in for `GetID` that tells different non-negative `CreatedAt` values
apart: the identifier is `CreatedAt` written in unary. -/
def unaryLib : EventLib where
  GetID := fun e => String.mk (List.replicate e.CreatedAt.toNat (Char.ofNat 105))
  EventString := fun e => e.ID

/-- The world after a `PutUser` call that returned nil in second 1000. -/
def beforeFailedPutUser (lib : EventLib) : World :=
  (PutUser rejectSecond lib {} 1000 1000 [] "g" "member" []).1

/-- The world after `PutUser("g", "abc", "admin")`, called in second 1014, has
failed at the relay. -/
def afterFailedPutUser (lib : EventLib) : World :=
  (PutUser rejectSecond lib (beforeFailedPutUser lib) 1014 1014 [] "g" "abc" ["admin"]).1

/-- The world after the reset asked for second 1015 has run. -/
def beforeRetry (lib : EventLib) : World :=
  fireReset (afterFailedPutUser lib)

/-- The world after the retry of `PutUser("g", "abc", "admin")` in second 1015. -/
def afterRetry (lib : EventLib) : World :=
  (PutUser rejectSecond lib (beforeRetry lib) 1015 1015 [] "g" "abc" ["admin"]).1

/-- A context on which other code has bound a value under a key equal to
`struct{}{}`, by `context.WithValue(context.Background(), struct{}{}, "session")`;
`applyEvents` has not been near it. -/
def foreignCtx : Context :=
  Context.WithValue [] CtxKey.emptyStruct (some (CtxVal.val "session"))

/-! # Lemmas on the embedding -/

theorem wrapInt64_of_inRange (x : Int) (h1 : -(2 ^ 63) ≤ x) (h2 : x < 2 ^ 63) :
    wrapInt64 x = x := by
  unfold wrapInt64
  norm_num at h1 h2 ⊢
  omega

theorem stampEvent_world {γ : Type} (s : State γ) (lib : EventLib) (w : World) (e : Event) :
    (stampEvent s lib w e).1 =
      { w with applyEventsSerial := wrapInt64 (w.applyEventsSerial + 1) } := rfl

theorem stampEvent_record {γ : Type} (s : State γ) (lib : EventLib) (w : World) (e : Event) :
    (stampEvent s lib w e).2 =
      (stampEvent s lib { applyEventsSerial := w.applyEventsSerial } e).2 := rfl

theorem stampEvent_Tags {γ : Type} (s : State γ) (lib : EventLib) (w : World) (e : Event) :
    (stampEvent s lib w e).2.Tags = e.Tags ++ [["autogenerated"]] := by
  unfold stampEvent
  by_cases h : e.PubKey = "" <;> simp [h]

theorem stampEvent_Kind {γ : Type} (s : State γ) (lib : EventLib) (w : World) (e : Event) :
    (stampEvent s lib w e).2.Kind = e.Kind := by
  unfold stampEvent
  by_cases h : e.PubKey = "" <;> simp [h]

theorem stampEvent_Content {γ : Type} (s : State γ) (lib : EventLib) (w : World) (e : Event) :
    (stampEvent s lib w e).2.Content = e.Content := by
  unfold stampEvent
  by_cases h : e.PubKey = "" <;> simp [h]

theorem stampEvent_Sig {γ : Type} (s : State γ) (lib : EventLib) (w : World) (e : Event) :
    (stampEvent s lib w e).2.Sig = e.Sig := by
  unfold stampEvent
  by_cases h : e.PubKey = "" <;> simp [h]

theorem stampEvent_CreatedAt {γ : Type} (s : State γ) (lib : EventLib) (w : World)
    (e : Event) :
    (stampEvent s lib w e).2.CreatedAt =
      wrapInt64 (e.CreatedAt + wrapInt64 (w.applyEventsSerial + 1)) := by
  unfold stampEvent
  by_cases h : e.PubKey = "" <;> simp [h]

theorem stampEvent_PubKey {γ : Type} (s : State γ) (lib : EventLib) (w : World) (e : Event) :
    (stampEvent s lib w e).2.PubKey = if e.PubKey = "" then s.publicKey else e.PubKey := by
  unfold stampEvent
  by_cases h : e.PubKey = "" <;> simp [h]

theorem stampedRecords_length {γ : Type} (s : State γ) (lib : EventLib) :
    ∀ (events : List Event) (serial : Int),
      (stampedRecords s lib serial events).length = events.length := by
  intro events
  induction events with
  | nil => intro serial; rfl
  | cons e es ih => intro serial; simp [stampedRecords, ih]

/-- What one run of the loop does to the world: it hands the first `k` stamped
records to the relay, in order, and touches nothing but the counter and the log. -/
theorem applyEventsLoop_spec {γ : Type} (s : State γ) (lib : EventLib) (c : Context) :
    ∀ (events : List Event) (w : World),
      ∃ k : Nat, k ≤ events.length ∧ (events ≠ [] → 1 ≤ k) ∧
        ((applyEventsLoop s lib c w events).2 = none → k = events.length) ∧
        (applyEventsLoop s lib c w events).1.calls =
          w.calls ++ ((stampedRecords s lib w.applyEventsSerial events).take k).map
            (fun r => (c, r)) ∧
        (applyEventsLoop s lib c w events).1.resetDeadline = w.resetDeadline ∧
        (applyEventsLoop s lib c w events).1.applyEventsSerial =
          (fun x => wrapInt64 (x + 1))^[k] w.applyEventsSerial := by
  intro events
  induction events with
  | nil =>
    intro w
    exact ⟨0, le_refl _, fun h => absurd rfl h, fun _ => rfl, by simp [applyEventsLoop], rfl, rfl⟩
  | cons e es ih =>
    intro w
    cases hsink : s.AddEvent w.calls c (stampEvent s lib w e).2 with
    | some err =>
      refine ⟨1, by simp, fun _ => le_refl _, ?_, ?_, ?_, ?_⟩
      · intro h
        simp [applyEventsLoop, stampEvent_world, hsink] at h
      · simp [applyEventsLoop, stampEvent_world, hsink, stampedRecords]
        rfl
      · simp [applyEventsLoop, stampEvent_world, hsink]
      · simp [applyEventsLoop, stampEvent_world, hsink]
    | none =>
      obtain ⟨k, hk, _, hnone, hcalls, hdl, hser⟩ :=
        ih { w with applyEventsSerial := wrapInt64 (w.applyEventsSerial + 1),
                    calls := w.calls ++ [(c, (stampEvent s lib w e).2)] }
      refine ⟨k + 1, by simpa using hk, fun _ => by omega, ?_, ?_, ?_, ?_⟩
      · intro h
        simp only [applyEventsLoop, stampEvent_world, hsink] at h
        simpa using hnone h
      · simp only [applyEventsLoop, stampEvent_world, hsink]
        rw [hcalls]
        simp [stampedRecords]
        rfl
      · simp only [applyEventsLoop, stampEvent_world, hsink]
        rw [hdl]
      · simp only [applyEventsLoop, stampEvent_world, hsink]
        rw [hser]
        simp [Function.iterate_succ_apply]

/-- What `applyEvents` does to the world: the loop of `applyEventsLoop_spec`,
then the reset is re-armed when no submission failed. -/
theorem applyEvents_spec {γ : Type} (s : State γ) (lib : EventLib) (w : World) (now : Int)
    (ctx : Context) (events : List Event) :
    ∃ k : Nat, k ≤ events.length ∧ (events ≠ [] → 1 ≤ k) ∧
      ((applyEvents s lib w now ctx events).2 = none → k = events.length) ∧
      (applyEvents s lib w now ctx events).1.calls =
        w.calls ++ ((stampedRecords s lib w.applyEventsSerial events).take k).map
          (fun r => (ourCtx ctx, r)) ∧
      (applyEvents s lib w now ctx events).1.resetDeadline =
        (if (applyEvents s lib w now ctx events).2 = none then some (now + debounceSeconds)
         else w.resetDeadline) ∧
      (applyEvents s lib w now ctx events).1.applyEventsSerial =
        (fun x => wrapInt64 (x + 1))^[k] w.applyEventsSerial := by
  obtain ⟨k, hk, hne, hnone, hcalls, hdl, hser⟩ :=
    applyEventsLoop_spec s lib (ourCtx ctx) events w
  refine ⟨k, hk, hne, ?_, ?_, ?_, ?_⟩
  all_goals
    unfold applyEvents
    change _ = _ → _ = _ at hnone
    rcases hloop : applyEventsLoop s lib (ourCtx ctx) w events with ⟨w1, _ | err⟩ <;>
      simp only [hloop] at hnone hcalls hdl hser <;>
      simp only [ourCtx] at hloop <;>
      simp [hloop, hcalls, hdl, hser] <;>
      try exact hnone trivial

theorem handed_of_calls (w w1 : World) (c : Context) (recs : List Event)
    (h : w1.calls = w.calls ++ recs.map (fun r => (c, r))) : handed w w1 = recs := by
  unfold handed
  rw [h]
  simp

theorem nominalPlusCounter_length :
    ∀ (events : List Event) (serial : Int),
      (nominalPlusCounter serial events).length = events.length := by
  intro events
  induction events with
  | nil => intro serial; rfl
  | cons e es ih => intro serial; simp [nominalPlusCounter, ih]

theorem stampedRecords_CreatedAt {γ : Type} (s : State γ) (lib : EventLib) :
    ∀ (events : List Event) (serial : Int), 0 ≤ serial →
      (∀ e ∈ events, 0 ≤ e.CreatedAt ∧ e.CreatedAt + serial + events.length < 2 ^ 63) →
      (stampedRecords s lib serial events).map (fun r => r.CreatedAt) =
        nominalPlusCounter serial events := by
  intro events
  induction events with
  | nil => intro serial _ _; rfl
  | cons e es ih =>
    intro serial hs hr
    have he := hr e (List.mem_cons_self e es)
    simp only [List.length_cons, Nat.cast_add, Nat.cast_one] at he
    have hlen : (0 : Int) ≤ (es.length : Int) := Int.ofNat_nonneg _
    have h1 : wrapInt64 (serial + 1) = serial + 1 :=
      wrapInt64_of_inRange _ (by norm_num; omega) (by omega)
    have h2 : wrapInt64 (e.CreatedAt + (serial + 1)) = e.CreatedAt + (serial + 1) :=
      wrapInt64_of_inRange _ (by norm_num; omega) (by omega)
    have ih1 := ih (serial + 1) (by omega) (by
      intro x hx
      have hx1 := hr x (List.mem_cons_of_mem e hx)
      simp only [List.length_cons, Nat.cast_add, Nat.cast_one] at hx1
      constructor <;> omega)
    simp only [stampedRecords, List.map_cons, stampEvent_CreatedAt, nominalPlusCounter, h1, h2,
      ih1]

theorem nominalPlusCounter_lower :
    ∀ (events : List Event) (serial : Int) (x : Int), x ∈ nominalPlusCounter serial events →
      ∃ e ∈ events, e.CreatedAt + serial + 1 ≤ x := by
  intro events
  induction events with
  | nil => intro serial x hx; simp [nominalPlusCounter] at hx
  | cons e es ih =>
    intro serial x hx
    simp only [nominalPlusCounter, List.mem_cons] at hx
    rcases hx with hx | hx
    · exact ⟨e, List.mem_cons_self e es, by omega⟩
    · obtain ⟨e1, he1, hle⟩ := ih (serial + 1) x hx
      exact ⟨e1, List.mem_cons_of_mem e he1, by omega⟩

theorem nominalPlusCounter_pairwise :
    ∀ (events : List Event) (serial : Int),
      List.Pairwise (fun a b => a ≤ b) (events.map (fun e => e.CreatedAt)) →
      List.Pairwise (fun a b => a < b) (nominalPlusCounter serial events) := by
  intro events
  induction events with
  | nil => intro serial _; simp [nominalPlusCounter]
  | cons e es ih =>
    intro serial hp
    simp only [List.map_cons, List.pairwise_cons] at hp
    simp only [nominalPlusCounter, List.pairwise_cons]
    refine ⟨?_, ih (serial + 1) hp.2⟩
    intro x hx
    obtain ⟨e1, he1, hle⟩ := nominalPlusCounter_lower es (serial + 1) x hx
    have := hp.1 e1.CreatedAt (List.mem_map_of_mem _ he1)
    omega

theorem stampEvent_StampedFrom {γ : Type} (s : State γ) (lib : EventLib) (w : World)
    (d : Event) : StampedFrom s d (stampEvent s lib w d).2 :=
  ⟨stampEvent_Tags s lib w d, stampEvent_Kind s lib w d, stampEvent_Content s lib w d,
    stampEvent_Sig s lib w d, stampEvent_PubKey s lib w d⟩

theorem stampedRecords_forall2 {γ : Type} (s : State γ) (lib : EventLib) :
    ∀ (events : List Event) (serial : Int),
      List.Forall₂ (StampedFrom s) events (stampedRecords s lib serial events) := by
  intro events
  induction events with
  | nil => intro serial; exact List.Forall₂.nil
  | cons e es ih =>
    intro serial
    exact List.Forall₂.cons (stampEvent_StampedFrom s lib _ e) (ih _)

/-- The records one call of `applyEvents` hands to the relay: the first `k`
stamped drafts, at least one when there is a draft, all when nothing fails. -/
theorem applyEvents_handed {γ : Type} (s : State γ) (lib : EventLib) (w : World) (now : Int)
    (ctx : Context) (events : List Event) :
    ∃ k : Nat, k ≤ events.length ∧ (events ≠ [] → 1 ≤ k) ∧
      ((applyEvents s lib w now ctx events).2 = none → k = events.length) ∧
      (applyEvents s lib w now ctx events).1.calls =
        w.calls ++ ((stampedRecords s lib w.applyEventsSerial events).take k).map
          (fun r => (ourCtx ctx, r)) ∧
      handed w (applyEvents s lib w now ctx events).1 =
        (stampedRecords s lib w.applyEventsSerial events).take k := by
  obtain ⟨k, hk, hne, hnone, hcalls, _, _⟩ := applyEvents_spec s lib w now ctx events
  exact ⟨k, hk, hne, hnone, hcalls, handed_of_calls w _ (ourCtx ctx) _ hcalls⟩

theorem applyEvents_handed_forall2 {γ : Type} (s : State γ) (lib : EventLib) (w : World)
    (now : Int) (ctx : Context) (events : List Event) :
    List.Forall₂ (StampedFrom s)
      (events.take (handed w (applyEvents s lib w now ctx events).1).length)
      (handed w (applyEvents s lib w now ctx events).1) := by
  obtain ⟨k, hk, _, _, _, hh⟩ := applyEvents_handed s lib w now ctx events
  rw [hh]
  have hlen : ((stampedRecords s lib w.applyEventsSerial events).take k).length = k := by
    rw [List.length_take, stampedRecords_length]
    exact Nat.min_eq_left hk
  rw [hlen]
  exact List.forall₂_take k (stampedRecords_forall2 s lib events _)

/-- A call with one draft hands exactly one record to the relay, whether or not
the relay accepts it. -/
theorem applyEvents_single_handed {γ : Type} (s : State γ) (lib : EventLib) (w : World)
    (now : Int) (ctx : Context) (d : Event) :
    (applyEvents s lib w now ctx [d]).1.calls =
        w.calls ++ [(ourCtx ctx, (stampEvent s lib w d).2)] ∧
      handed w (applyEvents s lib w now ctx [d]).1 = [(stampEvent s lib w d).2] := by
  obtain ⟨k, hk, hne, _, hcalls, hh⟩ := applyEvents_handed s lib w now ctx [d]
  have hk1 : k = 1 := le_antisymm (by simpa using hk) (hne (by simp))
  subst hk1
  rw [hcalls, hh]
  simp [stampedRecords]
  rfl

theorem CreateGroup_absent {γ : Type} (s : State γ) (lib : EventLib) (w : World)
    (t1 t2 now : Int) (ctx : Context) (groupId creator : String) (defs : EditMetadata)
    (habsent : s.Groups groupId = none) :
    CreateGroup s lib w t1 t2 now ctx groupId creator defs =
      applyEvents s lib w now ctx (createGroupDrafts groupId creator defs t1 t2) := by
  unfold CreateGroup
  rw [habsent]

theorem iterate_wrap_succ (k : Nat) (serial : Int) (h0 : 0 ≤ serial)
    (h1 : serial + k < 2 ^ 63) :
    (fun x => wrapInt64 (x + 1))^[k] serial = serial + k := by
  induction k with
  | zero => simp
  | succ n ih =>
    rw [Function.iterate_succ_apply']
    push_cast at h1
    have hn : (0 : Int) ≤ (n : Int) := Int.ofNat_nonneg _
    rw [ih (by omega)]
    push_cast
    rw [← add_assoc]
    exact wrapInt64_of_inRange _ (by norm_num; omega) (by omega)

theorem metadataTags_layout (groupId : String) (defs : EditMetadata) :
    metadataTags groupId defs =
      [["h", groupId]] ++
        defs.NameValue.toList.map (fun v => ["name", v]) ++
        defs.AboutValue.toList.map (fun v => ["about", v]) ++
        defs.PictureValue.toList.map (fun v => ["picture", v]) ++
        defs.ClosedValue.toList.map (fun b => if b then ["closed"] else ["open"]) ++
        defs.PrivateValue.toList.map (fun b => if b then ["private"] else ["public"]) := by
  obtain ⟨n, a, p, pr, c⟩ := defs
  unfold metadataTags
  cases n <;> cases a <;> cases p <;> rcases c with _ | _ | _ <;> rcases pr with _ | _ | _ <;>
    simp

theorem mem_stampedRecords {γ : Type} (s : State γ) (lib : EventLib) :
    ∀ (events : List Event) (serial : Int) (r : Event),
      r ∈ stampedRecords s lib serial events → ∃ d ∈ events, StampedFrom s d r := by
  intro events
  induction events with
  | nil => intro serial r hr; simp [stampedRecords] at hr
  | cons e es ih =>
    intro serial r hr
    simp only [stampedRecords, List.mem_cons] at hr
    rcases hr with hr | hr
    · exact ⟨e, List.mem_cons_self e es, hr ▸ stampEvent_StampedFrom s lib _ e⟩
    · obtain ⟨d, hd, hst⟩ := ih _ r hr
      exact ⟨d, List.mem_cons_of_mem e hd, hst⟩

/-- Every record a call of `applyEvents` hands to the relay is one of its
drafts, stamped. -/
theorem mem_handed_applyEvents {γ : Type} (s : State γ) (lib : EventLib) (w : World)
    (now : Int) (ctx : Context) (events : List Event) (r : Event)
    (hr : r ∈ handed w (applyEvents s lib w now ctx events).1) :
    ∃ d ∈ events, StampedFrom s d r := by
  obtain ⟨k, _, _, _, _, hh⟩ := applyEvents_handed s lib w now ctx events
  rw [hh] at hr
  exact mem_stampedRecords s lib events _ r (List.mem_of_mem_take hr)

theorem handed_self (w : World) : handed w w = [] := by
  simp [handed]

/-- Every record `CreateGroup` hands to the relay is one of its two drafts,
stamped. -/
theorem mem_handed_CreateGroup {γ : Type} (s : State γ) (lib : EventLib) (w : World)
    (t1 t2 now : Int) (ctx : Context) (groupId creator : String) (defs : EditMetadata)
    (r : Event)
    (hr : r ∈ handed w (CreateGroup s lib w t1 t2 now ctx groupId creator defs).1) :
    ∃ d ∈ createGroupDrafts groupId creator defs t1 t2, StampedFrom s d r := by
  cases hg : s.Groups groupId with
  | some g =>
    simp [CreateGroup, hg, handed_self] at hr
  | none =>
    rw [CreateGroup_absent s lib w t1 t2 now ctx groupId creator defs hg] at hr
    exact mem_handed_applyEvents s lib w now ctx _ r hr

theorem forall2_MarkedUnsigned {γ : Type} (s : State γ) :
    ∀ (ds rs : List Event), List.Forall₂ (StampedFrom s) ds rs → (∀ d ∈ ds, d.Sig = "") →
      List.Forall₂ MarkedUnsigned ds rs := by
  intro ds rs h
  induction h with
  | nil => intro _; exact List.Forall₂.nil
  | cons hab _ ih =>
    intro hsig
    refine List.Forall₂.cons ⟨hab.1, hab.2.1, hab.2.2.1, ?_⟩
      (ih (fun d hd => hsig d (List.mem_cons_of_mem _ hd)))
    rw [hab.2.2.2.1]
    exact hsig _ (List.mem_cons_self _ _)

/-- The records `applyEvents` hands to the relay, against the drafts they come
from, when the drafts carry no signature. -/
theorem applyEvents_MarkedUnsigned {γ : Type} (s : State γ) (lib : EventLib) (w : World)
    (now : Int) (ctx : Context) (events : List Event) (hsig : ∀ d ∈ events, d.Sig = "") :
    List.Forall₂ MarkedUnsigned
      (events.take (handed w (applyEvents s lib w now ctx events).1).length)
      (handed w (applyEvents s lib w now ctx events).1) :=
  forall2_MarkedUnsigned s _ _ (applyEvents_handed_forall2 s lib w now ctx events)
    (fun d hd => hsig d (List.mem_of_mem_take hd))

/-- The loop when the relay accepts the first `j` submissions and fails on the
next: the error wraps the relay's error and names the failing record, and the
log grows by the first `j + 1` stamped records. -/
theorem applyEventsLoop_fail_at {γ : Type} (s : State γ) (lib : EventLib) (c : Context) :
    ∀ (events : List Event) (w : World) (j : Nat) (rk : Event) (err : GoError),
      (stampedRecords s lib w.applyEventsSerial events)[j]? = some rk →
      (∀ i, i < j → ∀ r, (stampedRecords s lib w.applyEventsSerial events)[i]? = some r →
        s.AddEvent
          (w.calls ++ ((stampedRecords s lib w.applyEventsSerial events).take i).map
            (fun r => (c, r))) c r = none) →
      s.AddEvent
          (w.calls ++ ((stampedRecords s lib w.applyEventsSerial events).take j).map
            (fun r => (c, r))) c rk = some err →
      (applyEventsLoop s lib c w events).2 =
          some (GoError.wrap
            ("failed to apply event " ++ lib.EventString rk ++ ": " ++ err.Error) err) ∧
        (applyEventsLoop s lib c w events).1.calls =
          w.calls ++ ((stampedRecords s lib w.applyEventsSerial events).take (j + 1)).map
            (fun r => (c, r)) := by
  intro events
  induction events with
  | nil =>
    intro w j rk err hrk
    simp [stampedRecords] at hrk
  | cons e es ih =>
    intro w j rk err hrk hacc hfail
    cases j with
    | zero =>
      simp only [stampedRecords, List.getElem?_cons_zero, Option.some.injEq] at hrk
      simp only [List.take_zero, List.map_nil, List.append_nil] at hfail
      subst hrk
      have hsink : s.AddEvent w.calls c (stampEvent s lib w e).2 = some err := hfail
      constructor
      · simp [applyEventsLoop, stampEvent_world, hsink]
        rfl
      · simp [applyEventsLoop, stampEvent_world, hsink, stampedRecords]
        rfl
    | succ n =>
      have h0 := hacc 0 (Nat.succ_pos n) (stampEvent s lib w e).2 (by simp [stampedRecords]; rfl)
      simp only [List.take_zero, List.map_nil, List.append_nil] at h0
      simp only [stampedRecords, List.getElem?_cons_succ] at hrk
      have hrest := ih
        { w with applyEventsSerial := wrapInt64 (w.applyEventsSerial + 1),
                 calls := w.calls ++ [(c, (stampEvent s lib w e).2)] } n rk err hrk
        (by
          intro i hi r hr
          have := hacc (i + 1) (Nat.succ_lt_succ hi) r (by
            simp only [stampedRecords, List.getElem?_cons_succ]
            exact hr)
          simpa [stampedRecords, stampEvent_record s lib w e] using this)
        (by simpa [stampedRecords, stampEvent_record s lib w e] using hfail)
      constructor
      · simp only [applyEventsLoop, stampEvent_world, h0]
        exact hrest.1
      · simp only [applyEventsLoop, stampEvent_world, h0]
        rw [hrest.2]
        simp [stampedRecords]
        rfl

theorem applyEventsLoop_single {γ : Type} (s : State γ) (lib : EventLib) (c : Context)
    (w : World) (e : Event) :
    (applyEventsLoop s lib c w [e]).1 =
      { w with applyEventsSerial := wrapInt64 (w.applyEventsSerial + 1),
               calls := w.calls ++ [(c, (stampEvent s lib w e).2)] } := by
  cases hsink : s.AddEvent w.calls c (stampEvent s lib w e).2 <;>
    simp [applyEventsLoop, stampEvent_world, hsink]

theorem tickRun_append {γ : Type} (s : State γ) (lib : EventLib) :
    ∀ (a b : List Tick) (w : World),
      tickRun s lib w (a ++ b) = tickRun s lib (tickRun s lib w a) b := by
  intro a
  induction a with
  | nil => intro b w; rfl
  | cons x xs ih => intro b w; exact ih b _

/-- The loop of a call is a run of stamping steps, one for each pass it makes. -/
theorem applyEventsLoop_eq_tickRun {γ : Type} (s : State γ) (lib : EventLib) (ctx : Context)
    (t : Int) :
    ∀ (events : List Event) (w : World),
      ∃ k : Nat, k ≤ events.length ∧
        ((applyEventsLoop s lib (ourCtx ctx) w events).2 = none → k = events.length) ∧
        (applyEventsLoop s lib (ourCtx ctx) w events).1 =
          tickRun s lib w ((events.take k).map (fun e => Tick.stamp t ctx e)) := by
  intro events
  induction events with
  | nil => intro w; exact ⟨0, le_refl _, fun _ => rfl, rfl⟩
  | cons e es ih =>
    intro w
    have hone := applyEventsLoop_single s lib (ourCtx ctx) w e
    cases hsink : s.AddEvent w.calls (ourCtx ctx) (stampEvent s lib w e).2 with
    | some err =>
      refine ⟨1, by simp, ?_, ?_⟩
      · intro h
        simp [applyEventsLoop, stampEvent_world, hsink] at h
      · simp only [List.take_succ_cons, List.take_zero, List.map_cons, List.map_nil, tickRun,
          tickStep, hone]
        simp [applyEventsLoop, stampEvent_world, hsink]
    | none =>
      obtain ⟨k, hk, hnone, hrun⟩ := ih
        { w with applyEventsSerial := wrapInt64 (w.applyEventsSerial + 1),
                 calls := w.calls ++ [(ourCtx ctx, (stampEvent s lib w e).2)] }
      refine ⟨k + 1, by simpa using hk, ?_, ?_⟩
      · intro h
        simp only [applyEventsLoop, stampEvent_world, hsink] at h
        simpa using hnone h
      · simp only [List.take_succ_cons, List.map_cons, tickRun, tickStep, hone]
        simp only [applyEventsLoop, stampEvent_world, hsink]
        exact hrun

/-- Every call of `applyEvents` is an interleaving of its own: the stamping
steps of its loop and, when it returns nil, the step that re-arms the reset. -/
theorem applyEvents_eq_tickRun {γ : Type} (s : State γ) (lib : EventLib) (w : World)
    (now : Int) (ctx : Context) (events : List Event) :
    ∃ k : Nat, k ≤ events.length ∧
      (applyEvents s lib w now ctx events).1 =
        tickRun s lib w
          (callTicks ctx events now k (applyEvents s lib w now ctx events).2.isNone) := by
  obtain ⟨k, hk, _, hrun⟩ := applyEventsLoop_eq_tickRun s lib ctx now events w
  refine ⟨k, hk, ?_⟩
  unfold applyEvents callTicks
  rw [tickRun_append, ← hrun]
  rcases hloop : applyEventsLoop s lib (ourCtx ctx) w events with ⟨w1, _ | err⟩ <;>
    simp only [ourCtx] at hloop <;> simp [hloop, tickRun, tickStep]

theorem tickStep_stamp_serial {γ : Type} (s : State γ) (lib : EventLib) (w : World) (t : Int)
    (ctx : Context) (e : Event) :
    (tickStep s lib w (Tick.stamp t ctx e)).applyEventsSerial =
      wrapInt64 (w.applyEventsSerial + 1) := by
  simp only [tickStep, applyEventsLoop_single]

theorem fireReset_serial (w : World) : (fireReset w).applyEventsSerial = 0 := rfl

/-- Along an interleaving in which the clock never goes backwards and every
timer step comes in a later second than the stamps before it, the pairs of
second and offset stay distinct. -/
theorem offsetLog_nodup {γ : Type} (s : State γ) (lib : EventLib) :
    ∀ (ticks : List Tick) (w : World) (clock : Int) (lastStamp : Option Int)
      (log : List (Int × Int)),
      OffsetInv w clock lastStamp log → ticksMonotone clock ticks →
      resetsAfterStamps lastStamp ticks →
      w.applyEventsSerial + (stampCount ticks : Int) < 2 ^ 63 →
      (log ++ offsetLog s lib w ticks).Nodup := by
  intro ticks
  induction ticks with
  | nil =>
    intro w clock lastStamp log hinv _ _ _
    simpa [offsetLog] using hinv.2.1
  | cons tick rest ih =>
    intro w clock lastStamp log hinv hmono hres hrange
    obtain ⟨hs0, hnd, hlog, hlast⟩ := hinv
    have hcnt : (0 : Int) ≤ (stampCount rest : Int) := Int.ofNat_nonneg _
    cases tick with
    | stamp t ctx e =>
      simp only [ticksMonotone] at hmono
      simp only [resetsAfterStamps] at hres
      simp only [stampCount, Nat.cast_add, Nat.cast_one] at hrange
      have hwrap : wrapInt64 (w.applyEventsSerial + 1) = w.applyEventsSerial + 1 :=
        wrapInt64_of_inRange _ (by norm_num; omega) (by omega)
      have hser := tickStep_stamp_serial s lib w t ctx e
      rw [hwrap] at hser
      have hoff : (stampEvent s lib w e).1.applyEventsSerial = w.applyEventsSerial + 1 := by
        rw [stampEvent_world]
        exact hwrap
      have hstep := ih (tickStep s lib w (Tick.stamp t ctx e)) t (some t)
        (log ++ [(t, w.applyEventsSerial + 1)]) ?_ hmono.2 hres (by rw [hser]; omega)
      · simpa [offsetLog, hoff] using hstep
      · refine ⟨by rw [hser]; omega, ?_, ?_, ?_⟩
        · rw [List.nodup_append]
          refine ⟨hnd, List.nodup_singleton _, ?_⟩
          intro p hp hp1
          simp only [List.mem_singleton] at hp1
          obtain ⟨h1, h2⟩ := hlog p hp
          rw [hp1] at h1 h2
          simp only at h1 h2
          omega
        · intro p hp
          rw [hser]
          simp only [List.mem_append, List.mem_singleton] at hp
          rcases hp with hp | hp
          · obtain ⟨h1, h2⟩ := hlog p hp
            exact ⟨by omega, by omega⟩
          · rw [hp]
            exact ⟨le_refl _, Or.inl (le_refl _)⟩
        · intro p hp
          simp only [List.mem_append, List.mem_singleton] at hp
          rcases hp with hp | hp
          · exact ⟨t, rfl, by have := (hlog p hp).1; omega⟩
          · rw [hp]
            exact ⟨t, rfl, le_refl _⟩
    | arm t =>
      simp only [ticksMonotone] at hmono
      simp only [resetsAfterStamps] at hres
      simp only [stampCount] at hrange
      have hstep := ih (tickStep s lib w (Tick.arm t)) t lastStamp log
        ⟨hs0, hnd, fun p hp => ⟨by have := (hlog p hp).1; omega, by
          have := hlog p hp
          simp only [tickStep]
          omega⟩, hlast⟩ hmono.2 hres hrange
      simpa [offsetLog] using hstep
    | reset t =>
      simp only [ticksMonotone] at hmono
      simp only [resetsAfterStamps] at hres
      simp only [stampCount] at hrange
      have hzero : (tickStep s lib w (Tick.reset t)).applyEventsSerial = 0 := rfl
      have hstep := ih (tickStep s lib w (Tick.reset t)) t lastStamp log
        ⟨by rw [hzero], hnd, fun p hp => ⟨by have := (hlog p hp).1; omega, by
          obtain ⟨l, hl, hpl⟩ := hlast p hp
          have := hres.1 l hl
          exact Or.inr (by omega)⟩, hlast⟩ hmono.2 hres.2 (by rw [hzero]; omega)
      simpa [offsetLog] using hstep

theorem stampEvent_ID {γ : Type} (s : State γ) (lib : EventLib) (w : World) (e : Event) :
    (stampEvent s lib w e).2.ID = lib.GetID { (stampEvent s lib w e).2 with ID := e.ID } := by
  unfold stampEvent
  by_cases h : e.PubKey = "" <;> simp [h]

theorem mem_stampedRecords_ID {γ : Type} (s : State γ) (lib : EventLib) :
    ∀ (events : List Event) (serial : Int) (r : Event),
      r ∈ stampedRecords s lib serial events →
      ∃ d ∈ events, StampedFrom s d r ∧ r.ID = lib.GetID { r with ID := d.ID } := by
  intro events
  induction events with
  | nil => intro serial r hr; simp [stampedRecords] at hr
  | cons e es ih =>
    intro serial r hr
    simp only [stampedRecords, List.mem_cons] at hr
    rcases hr with hr | hr
    · exact ⟨e, List.mem_cons_self e es, hr ▸ stampEvent_StampedFrom s lib _ e,
        hr ▸ stampEvent_ID s lib _ e⟩
    · obtain ⟨d, hd, hst, hid⟩ := ih _ r hr
      exact ⟨d, List.mem_cons_of_mem e hd, hst, hid⟩

/-- Every record a call hands to the relay carries as `ID` the `GetID` of that
record with the draft's `ID` still in place. -/
theorem mem_handed_applyEvents_ID {γ : Type} (s : State γ) (lib : EventLib) (w : World)
    (now : Int) (ctx : Context) (events : List Event) (r : Event)
    (hr : r ∈ handed w (applyEvents s lib w now ctx events).1) :
    ∃ d ∈ events, StampedFrom s d r ∧ r.ID = lib.GetID { r with ID := d.ID } := by
  obtain ⟨k, _, _, _, _, hh⟩ := applyEvents_handed s lib w now ctx events
  rw [hh] at hr
  exact mem_stampedRecords_ID s lib events _ r (List.mem_of_mem_take hr)

theorem fireReset_calls (w : World) : (fireReset w).calls = w.calls := rfl

theorem Context_Value_of_unbound :
    ∀ (ctx : Context) (key : CtxKey), (∀ b ∈ ctx, b.1 ≠ key) → ctx.Value key = none := by
  intro ctx
  induction ctx with
  | nil => intro key _; rfl
  | cons b rest ih =>
    intro key h
    obtain ⟨k, v⟩ := b
    have hk : k ≠ key := h (k, v) (List.mem_cons_self _ _)
    simp only [Context.Value, hk, if_false]
    exact ih key (fun b1 hb1 => h b1 (List.mem_cons_of_mem _ hb1))

theorem tickStep_stamp_calls_length {γ : Type} (s : State γ) (lib : EventLib) (w : World)
    (t : Int) (ctx : Context) (e : Event) :
    (tickStep s lib w (Tick.stamp t ctx e)).calls.length = w.calls.length + 1 := by
  simp [tickStep, applyEventsLoop_single]

theorem tickStep_arm_calls_length {γ : Type} (s : State γ) (lib : EventLib) (w : World)
    (t : Int) : (tickStep s lib w (Tick.arm t)).calls.length = w.calls.length := by
  simp [tickStep]

theorem tickStep_reset_calls_length {γ : Type} (s : State γ) (lib : EventLib) (w : World)
    (t : Int) : (tickStep s lib w (Tick.reset t)).calls.length = w.calls.length := by
  simp [tickStep, fireReset_calls]

/-- Along every interleaving the counter is the number of stamps since the most
recent reset, and each stamp receives its position among them as offset. -/
theorem counter_counts_stamps {γ : Type} (s : State γ) (lib : EventLib) :
    ∀ (ticks : List Tick) (w : World) (n : Nat),
      w.applyEventsSerial = n → (n : Int) + (stampCount ticks : Int) < 2 ^ 63 →
      (tickRun s lib w ticks).applyEventsSerial = stampsSinceReset s lib w n ticks ∧
        (offsetLog s lib w ticks).map Prod.snd = positionLog s lib w n ticks ∧
        stampsSinceReset s lib w n ticks ≤ n + stampCount ticks ∧
        (tickRun s lib w ticks).calls.length = w.calls.length + stampCount ticks := by
  intro ticks
  induction ticks with
  | nil =>
    intro w n hn _
    exact ⟨hn, rfl, by simp [stampsSinceReset, stampCount], by simp [tickRun, stampCount]⟩
  | cons tick rest ih =>
    intro w n hn hrange
    have hcnt : (0 : Int) ≤ (stampCount rest : Int) := Int.ofNat_nonneg _
    have hn0 : (0 : Int) ≤ (n : Int) := Int.ofNat_nonneg _
    cases tick with
    | stamp t ctx e =>
      simp only [stampCount, Nat.cast_add, Nat.cast_one] at hrange
      have hwrap : wrapInt64 (w.applyEventsSerial + 1) = ((n + 1 : Nat) : Int) := by
        rw [hn]
        push_cast
        exact wrapInt64_of_inRange _ (by norm_num; omega) (by omega)
      have hser : (tickStep s lib w (Tick.stamp t ctx e)).applyEventsSerial =
          ((n + 1 : Nat) : Int) := by
        rw [tickStep_stamp_serial, hwrap]
      obtain ⟨h1, h2, h3, h4⟩ := ih (tickStep s lib w (Tick.stamp t ctx e)) (n + 1) hser
        (by push_cast; omega)
      refine ⟨h1, ?_, ?_, ?_⟩
      · simp only [offsetLog, positionLog, List.map_cons, h2, stampEvent_world, hwrap]
        push_cast
        rfl
      · simp only [stampsSinceReset, stampCount]
        omega
      · simp only [tickRun, stampCount]
        rw [h4, tickStep_stamp_calls_length]
        omega
    | arm t =>
      simp only [stampCount] at hrange
      obtain ⟨h1, h2, h3, h4⟩ := ih (tickStep s lib w (Tick.arm t)) n hn hrange
      exact ⟨h1, h2, h3, by
        simp only [tickRun, stampCount]
        rw [h4, tickStep_arm_calls_length]⟩
    | reset t =>
      simp only [stampCount] at hrange
      obtain ⟨h1, h2, h3, h4⟩ := ih (tickStep s lib w (Tick.reset t)) 0 rfl
        (by push_cast; omega)
      simp only [stampsSinceReset, positionLog, offsetLog, tickRun, stampCount]
      exact ⟨h1, h2, by omega, by rw [h4, tickStep_reset_calls_length]⟩

/-- A call of `applyEvents` taken as one step, so that no reset runs between two
passes of its loop: for a batch of at least one draft with non-decreasing
nominal timestamps, the `CreatedAt` values of the records handed to the relay
are strictly increasing in submission order; they are the first `k` values
"nominal timestamp plus the counter value of the draft's own increment", with
`k ≥ 1`, and `k` the whole batch when no submission fails. The counter and the
timestamps are taken in the range where `int64` addition does not wrap. -/
theorem applyEvents_createdAt_increasing_uninterrupted {γ : Type} (s : State γ) (lib : EventLib)
    (w : World) (now : Int) (ctx : Context) (events : List Event)
    (hN : 1 ≤ events.length)
    (hsorted : List.Pairwise (fun a b => a ≤ b) (events.map (fun e => e.CreatedAt)))
    (hserial : 0 ≤ w.applyEventsSerial)
    (hrange : ∀ e ∈ events,
      0 ≤ e.CreatedAt ∧ e.CreatedAt + w.applyEventsSerial + events.length < 2 ^ 63) :
    List.Pairwise (fun a b => a < b)
        ((handed w (applyEvents s lib w now ctx events).1).map (fun r => r.CreatedAt)) ∧
      ∃ k : Nat, 1 ≤ k ∧ k ≤ events.length ∧
        ((applyEvents s lib w now ctx events).2 = none → k = events.length) ∧
        (handed w (applyEvents s lib w now ctx events).1).map (fun r => r.CreatedAt) =
          (nominalPlusCounter w.applyEventsSerial events).take k := by
  obtain ⟨k, hk, hne, hnone, hcalls, _, _⟩ := applyEvents_spec s lib w now ctx events
  have hh := handed_of_calls w _ (ourCtx ctx) _ hcalls
  have hmap : (handed w (applyEvents s lib w now ctx events).1).map (fun r => r.CreatedAt) =
      (nominalPlusCounter w.applyEventsSerial events).take k := by
    rw [hh, List.map_take, stampedRecords_CreatedAt s lib events _ hserial hrange]
  refine ⟨?_, k, hne (by intro h; simp [h] at hN), hk, hnone, hmap⟩
  rw [hmap]
  exact (nominalPlusCounter_pairwise events _ hsorted).sublist (List.take_sublist _ _)

theorem createdAts_tickStep_stamp {γ : Type} (s : State γ) (lib : EventLib) (w : World)
    (t : Int) (ctx : Context) (e : Event) :
    createdAts (tickStep s lib w (Tick.stamp t ctx e)) =
      createdAts w ++ [wrapInt64 (e.CreatedAt + wrapInt64 (w.applyEventsSerial + 1))] := by
  simp [tickStep, applyEventsLoop_single, createdAts, stampEvent_CreatedAt]

/-- Along an interleaving whose drafts are stamped in build order and whose
resets come late and find the counter small, the log stays strictly increasing. -/
theorem tickRun_ordered {γ : Type} (s : State γ) (lib : EventLib) :
    ∀ (ticks : List Tick) (w : World) (clock built : Int) (lastStep : Option Int),
      OrderInv w clock built lastStep → ticksMonotone clock ticks →
      stampedInBuildOrder built ticks → resetsLateTicks lastStep ticks →
      resetsBoundedTicks s lib debounceSeconds w ticks →
      (∀ e ∈ tickDrafts ticks,
        e.CreatedAt + w.applyEventsSerial + (stampCount ticks : Int) < 2 ^ 63) →
      List.Pairwise (fun a b => a < b) (createdAts (tickRun s lib w ticks)) := by
  intro ticks
  induction ticks with
  | nil =>
    intro w clock built lastStep hinv _ _ _ _ _
    exact hinv.2.2.2.1
  | cons tick rest ih =>
    intro w clock built lastStep hinv hmono horder hlate hbound hrange
    obtain ⟨hb0, hs0, hub, hpw, hlast⟩ := hinv
    have hcnt : (0 : Int) ≤ (stampCount rest : Int) := Int.ofNat_nonneg _
    cases tick with
    | stamp t ctx e =>
      simp only [ticksMonotone] at hmono
      simp only [stampedInBuildOrder] at horder
      simp only [resetsLateTicks] at hlate
      simp only [resetsBoundedTicks] at hbound
      simp only [tickDrafts, List.mem_cons, stampCount, Nat.cast_add, Nat.cast_one] at hrange
      have he := hrange e (Or.inl rfl)
      have hw1 : wrapInt64 (w.applyEventsSerial + 1) = w.applyEventsSerial + 1 :=
        wrapInt64_of_inRange _ (by norm_num; omega) (by omega)
      have hw2 : wrapInt64 (e.CreatedAt + (w.applyEventsSerial + 1)) =
          e.CreatedAt + (w.applyEventsSerial + 1) :=
        wrapInt64_of_inRange _ (by norm_num; omega) (by omega)
      have hser : (tickStep s lib w (Tick.stamp t ctx e)).applyEventsSerial =
          w.applyEventsSerial + 1 := by
        rw [tickStep_stamp_serial, hw1]
      have hcre : createdAts (tickStep s lib w (Tick.stamp t ctx e)) =
          createdAts w ++ [e.CreatedAt + (w.applyEventsSerial + 1)] := by
        rw [createdAts_tickStep_stamp, hw1, hw2]
      refine ih _ t e.CreatedAt (some t) ⟨by omega, by omega, ?_, ?_, ?_⟩ hmono.2 horder.2.2
        hlate hbound ?_
      · intro x hx
        rw [hcre, List.mem_append, List.mem_singleton] at hx
        rw [hser]
        rcases hx with hx | hx
        · have := hub x hx
          omega
        · omega
      · rw [hcre, List.pairwise_append]
        refine ⟨hpw, List.pairwise_singleton _ _, ?_⟩
        intro a ha b hb
        rw [List.mem_singleton] at hb
        have := hub a ha
        omega
      · exact Or.inl ⟨t, rfl, horder.2.1, le_refl _⟩
      · intro x hx
        have := hrange x (Or.inr hx)
        rw [hser]
        omega
    | arm t =>
      simp only [ticksMonotone] at hmono
      simp only [stampedInBuildOrder] at horder
      simp only [resetsLateTicks] at hlate
      simp only [resetsBoundedTicks] at hbound
      simp only [tickDrafts, stampCount] at hrange
      refine ih _ t built (some t) ⟨hb0, hs0, hub, hpw, ?_⟩ hmono.2 horder hlate hbound hrange
      rcases hlast with ⟨c, _, hbc, hcc⟩ | hzero
      · exact Or.inl ⟨t, rfl, by omega, le_refl _⟩
      · exact Or.inr hzero
    | reset t =>
      simp only [ticksMonotone] at hmono
      simp only [stampedInBuildOrder] at horder
      simp only [resetsLateTicks] at hlate
      simp only [resetsBoundedTicks] at hbound
      simp only [tickDrafts, stampCount] at hrange
      have hzero : (tickStep s lib w (Tick.reset t)).applyEventsSerial = 0 := rfl
      have hcre : createdAts (tickStep s lib w (Tick.reset t)) = createdAts w := rfl
      refine ih _ t t lastStep ⟨by omega, by rw [hzero], ?_, by rw [hcre]; exact hpw,
        Or.inr hzero⟩ hmono.2 horder.2 hlate.2 hbound.2 ?_
      · intro x hx
        rw [hcre] at hx
        rw [hzero]
        have h1 := hub x hx
        rcases hlast with ⟨c, hc, hbc, _⟩ | hz
        · have := hlate.1 c hc
          have := hbound.1
          simp only [debounceSeconds] at *
          omega
        · omega
      · intro x hx
        have := hrange x hx
        rw [hzero]
        omega

/-- The world after a call with one draft. -/
theorem applyEvents_single_world {γ : Type} (s : State γ) (lib : EventLib) (w : World)
    (now : Int) (ctx : Context) (d : Event) :
    (applyEvents s lib w now ctx [d]).1 =
      { applyEventsSerial := wrapInt64 (w.applyEventsSerial + 1),
        resetDeadline :=
          if s.AddEvent w.calls (ourCtx ctx) (stampEvent s lib w d).2 = none then
            some (now + debounceSeconds)
          else w.resetDeadline,
        calls := w.calls ++ [(ourCtx ctx, (stampEvent s lib w d).2)] } := by
  unfold applyEvents
  cases hsink : s.AddEvent w.calls (ourCtx ctx) (stampEvent s lib w d).2 with
  | none =>
    have hs : s.AddEvent w.calls
        (Context.WithValue ctx internalCallContextKey (some CtxVal.emptyStruct))
        (stampEvent s lib w d).2 = none := hsink
    simp [applyEventsLoop, stampEvent_world, hs, ourCtx]
  | some err =>
    have hs : s.AddEvent w.calls
        (Context.WithValue ctx internalCallContextKey (some CtxVal.emptyStruct))
        (stampEvent s lib w d).2 = some err := hsink
    simp [applyEventsLoop, stampEvent_world, hs, ourCtx]

theorem handed_tickStep_stamp {γ : Type} (s : State γ) (lib : EventLib) (w : World) (t : Int)
    (ctx : Context) (e : Event) :
    handed w (tickStep s lib w (Tick.stamp t ctx e)) = [(stampEvent s lib w e).2] := by
  simp [handed, tickStep, applyEventsLoop_single]

/-- Without a reset the counter has grown by the number of stamps. -/
theorem tickRun_serial_of_no_reset {γ : Type} (s : State γ) (lib : EventLib) :
    ∀ (ticks : List Tick) (w : World), (∀ t, Tick.reset t ∉ ticks) →
      0 ≤ w.applyEventsSerial → w.applyEventsSerial + (stampCount ticks : Int) < 2 ^ 63 →
      (tickRun s lib w ticks).applyEventsSerial = w.applyEventsSerial + stampCount ticks := by
  intro ticks
  induction ticks with
  | nil => intro w _ _ _; simp [tickRun, stampCount]
  | cons tick rest ih =>
    intro w hno h0 hrange
    have hcnt : (0 : Int) ≤ (stampCount rest : Int) := Int.ofNat_nonneg _
    have hrest : ∀ t, Tick.reset t ∉ rest := fun t h => hno t (List.mem_cons_of_mem _ h)
    cases tick with
    | stamp t ctx e =>
      simp only [stampCount, Nat.cast_add, Nat.cast_one] at hrange
      have hser : (tickStep s lib w (Tick.stamp t ctx e)).applyEventsSerial =
          w.applyEventsSerial + 1 := by
        rw [tickStep_stamp_serial]
        exact wrapInt64_of_inRange _ (by norm_num; omega) (by omega)
      simp only [tickRun, stampCount, Nat.cast_add, Nat.cast_one]
      rw [ih _ hrest (by omega) (by omega), hser]
      omega
    | arm t =>
      simp only [stampCount] at hrange
      simp only [tickRun, stampCount]
      exact ih _ hrest h0 hrange
    | reset t =>
      exact absurd (List.mem_cons_self _ _) (hno t)

theorem unaryLib_distinct :
    ∀ x y : Event, 0 ≤ x.CreatedAt → 0 ≤ y.CreatedAt →
      unaryLib.GetID x = unaryLib.GetID y → x.CreatedAt = y.CreatedAt := by
  intro x y hx hy h
  have hdata := congrArg String.data h
  have hlen := congrArg List.length hdata
  simp only [unaryLib, List.length_replicate] at hlen
  omega

/-- A call with one unsigned draft hands exactly one record, the draft marked. -/
theorem applyEvents_single_MarkedUnsigned {γ : Type} (s : State γ) (lib : EventLib)
    (w : World) (now : Int) (ctx : Context) (d : Event) (hsig : d.Sig = "") :
    List.Forall₂ MarkedUnsigned [d] (handed w (applyEvents s lib w now ctx [d]).1) := by
  rw [(applyEvents_single_handed s lib w now ctx d).2]
  refine List.Forall₂.cons ⟨stampEvent_Tags s lib w d, stampEvent_Kind s lib w d,
    stampEvent_Content s lib w d, ?_⟩ List.Forall₂.nil
  rw [stampEvent_Sig, hsig]

/-! # The claims -/

/-- C1 does not hold of the code: `applyEvents` calls the debouncer only after
its loop, so the timer armed by an earlier call can run the reset between two
passes of the loop of one call. In `midBatchTicks` a `PutUser` call returns nil
in second 1000, a `CreateGroup` call stamps its first draft in second 1015
(offset 2), the reset runs, and the call stamps its second draft (offset 1): the
create-group record gets `CreatedAt` 1017 and the edit-metadata record of the
same batch 1016. -/
theorem CreateGroup_batch_not_increasing_when_reset_runs_mid_batch :
    ticksMonotone 0 midBatchTicks ∧
      (tickRun demoState demoLib {} midBatchTicks).calls.map
          (fun c => (c.2.Kind, c.2.CreatedAt)) =
        [(Kind.SimpleGroupPutUser, 1001), (Kind.SimpleGroupCreateGroup, 1017),
          (Kind.SimpleGroupEditMetadata, 1016)] ∧
      ¬ List.Pairwise (fun a b => a < b)
        ((createdAts (tickRun demoState demoLib {} midBatchTicks)).drop 1) := by
  refine ⟨?_, ?_, ?_⟩
  · simp [ticksMonotone, midBatchTicks]
  · decide
  · decide

/-- C2 as stated does not hold, for two reasons. A reset puts the counter back
to zero whatever it has reached: after eight `CreateGroup` batches in second
1000 (`burstTicks`) the counter is 16, the reset runs 15 seconds after the last
call, and the draft built in second 1015 gets `CreatedAt` 1016, which the last
record of the burst already has. And the offset is added to the second in which
the draft was built, not to the second in which it is stamped: when two calls
overlap (`overlapTicks`, no reset), the draft built in 1001 and stamped second
and the draft built in 1000 and stamped third both get `CreatedAt` 1003. -/
theorem createdAt_not_increasing_across_reset :
    (ticksMonotone 0 burstTicks ∧ resetsLateTicks none burstTicks ∧
      createdAts (tickRun demoState demoLib {} burstTicks) =
        [1001, 1002, 1003, 1004, 1005, 1006, 1007, 1008, 1009, 1010, 1011, 1012, 1013, 1014,
          1015, 1016, 1016] ∧
      ¬ List.Pairwise (fun a b => a < b)
        (createdAts (tickRun demoState demoLib {} burstTicks))) ∧
    (ticksMonotone 0 overlapTicks ∧ resetsLateTicks none overlapTicks ∧
      createdAts (tickRun demoState demoLib {} overlapTicks) = [1001, 1003, 1003] ∧
      ¬ List.Pairwise (fun a b => a < b)
        (createdAts (tickRun demoState demoLib {} overlapTicks))) := by
  refine ⟨⟨?_, ?_, ?_, ?_⟩, ⟨?_, ?_, ?_, ?_⟩⟩
  · simp [ticksMonotone, burstTicks, callTicks, List.replicate, createGroupDrafts,
      putUserDrafts]
  · simp [resetsLateTicks, burstTicks, callTicks, List.replicate, createGroupDrafts,
      putUserDrafts, debounceSeconds]
  · decide
  · decide
  · simp [ticksMonotone, overlapTicks]
  · simp [resetsLateTicks, overlapTicks]
  · decide
  · decide

/-- C2, amended: over every interleaving, from process start, of the stamping
steps and debouncer calls of `applyEvents` calls with counter resets, in which
the wall clock never goes backwards, the drafts are stamped in the order in
which they were built, each no earlier than it was built and none after a reset
that ran in a later second than the one in which it was built
(`stampedInBuildOrder`, as when calls overlap neither each other nor a reset), a
reset runs only 15 seconds or more after the latest step of a call, and the
counter stands at 15 or less whenever a reset runs (so in every such
interleaving without a reset), the `CreatedAt` values of all records handed to
the relay are strictly increasing in the order in which they were stamped,
across calls and resets as well as within one call. Timestamps and the number
of drafts are taken in the range where `int64` addition does not wrap. -/
theorem createdAt_increasing_while_resets_bounded {γ : Type} (s : State γ) (lib : EventLib)
    (ticks : List Tick)
    (hclock : ticksMonotone 0 ticks)
    (horder : stampedInBuildOrder 0 ticks)
    (hlate : resetsLateTicks none ticks)
    (hbound : resetsBoundedTicks s lib debounceSeconds {} ticks)
    (hrange : ∀ e ∈ tickDrafts ticks, e.CreatedAt + (stampCount ticks : Int) < 2 ^ 63) :
    List.Pairwise (fun a b => a < b) (createdAts (tickRun s lib {} ticks)) := by
  refine tickRun_ordered s lib ticks {} 0 0 none ?_ hclock horder hlate hbound ?_
  · refine ⟨le_refl _, le_refl _, ?_, ?_, Or.inr rfl⟩
    · intro x hx
      simp [createdAts] at hx
    · simp [createdAts]
  · intro e he
    have := hrange e he
    simpa using this

/-- C2, amended, at a concrete interleaving: one batch of two drafts, the reset,
one more draft. -/
theorem createdAt_increasing_while_resets_bounded_witness :
    createdAts (tickRun demoState demoLib {} shortBurstTicks) = [1001, 1002, 1016] ∧
      List.Pairwise (fun a b => a < b)
        (createdAts (tickRun demoState demoLib {} shortBurstTicks)) :=
  ⟨by decide,
    createdAt_increasing_while_resets_bounded demoState demoLib shortBurstTicks
      (by simp [ticksMonotone, shortBurstTicks, callTicks, createGroupDrafts, putUserDrafts])
      (by simp [stampedInBuildOrder, shortBurstTicks, callTicks, createGroupDrafts,
        putUserDrafts])
      (by simp [resetsLateTicks, shortBurstTicks, callTicks, createGroupDrafts, putUserDrafts,
        debounceSeconds])
      (by
        simp only [resetsBoundedTicks, shortBurstTicks, callTicks, createGroupDrafts,
          putUserDrafts, List.take, List.map, List.cons_append, List.nil_append, if_true]
        exact ⟨by decide, trivial⟩)
      (by decide)⟩

/-- C3: when the group lookup yields a group, `CreateGroup` returns the error
"group \x27<groupId>\x27 already exists", hands no record to the relay and leaves
the world (the counter, the pending reset, the log) as it was. -/
theorem CreateGroup_existing_group {γ : Type} (s : State γ) (lib : EventLib) (w : World)
    (t1 t2 now : Int) (ctx : Context) (groupId creator : String) (defs : EditMetadata)
    (g : γ) (hexists : s.Groups groupId = some g) :
    (CreateGroup s lib w t1 t2 now ctx groupId creator defs).2 =
        some (GoError.plain ("group \x27" ++ groupId ++ "\x27 already exists")) ∧
      handed w (CreateGroup s lib w t1 t2 now ctx groupId creator defs).1 = [] ∧
      (CreateGroup s lib w t1 t2 now ctx groupId creator defs).1.calls = w.calls ∧
      (CreateGroup s lib w t1 t2 now ctx groupId creator defs).1.applyEventsSerial =
        w.applyEventsSerial ∧
      (CreateGroup s lib w t1 t2 now ctx groupId creator defs).1.resetDeadline =
        w.resetDeadline := by
  unfold CreateGroup
  rw [hexists]
  simp [handed]

/-- C3, at a concrete call: the group "known" exists for `demoState`. -/
theorem CreateGroup_existing_group_witness :
    (CreateGroup demoState demoLib { applyEventsSerial := 4, resetDeadline := some 20 }
        1000 1000 1000 [] "known" "creator" {}).2 =
      some (GoError.plain "group \x27known\x27 already exists") :=
  (CreateGroup_existing_group demoState demoLib { applyEventsSerial := 4, resetDeadline := some 20 }
    1000 1000 1000 [] "known" "creator" {} () (by decide)).1

/-- C4: for a group the lookup reports absent, a `CreateGroup` call whose
submissions all succeed hands exactly two records to the relay, in this order:
a create-group record whose tags are the draft tag list `[["h", groupId]]`
followed by the marker, then the edit-metadata record. -/
theorem CreateGroup_hands_two_records {γ : Type} (s : State γ) (lib : EventLib) (w : World)
    (t1 t2 now : Int) (ctx : Context) (groupId creator : String) (defs : EditMetadata)
    (habsent : s.Groups groupId = none)
    (hok : (CreateGroup s lib w t1 t2 now ctx groupId creator defs).2 = none) :
    ∃ d1 d2 r1 r2,
      createGroupDrafts groupId creator defs t1 t2 = [d1, d2] ∧
      (CreateGroup s lib w t1 t2 now ctx groupId creator defs).1.calls =
        w.calls ++ [(ourCtx ctx, r1), (ourCtx ctx, r2)] ∧
      d1.Kind = Kind.SimpleGroupCreateGroup ∧ d1.Tags = [["h", groupId]] ∧
      r1.Kind = Kind.SimpleGroupCreateGroup ∧ r1.Tags = d1.Tags ++ [["autogenerated"]] ∧
      d2.Kind = Kind.SimpleGroupEditMetadata ∧
      r2.Kind = Kind.SimpleGroupEditMetadata ∧ r2.Tags = d2.Tags ++ [["autogenerated"]] := by
  rw [CreateGroup_absent s lib w t1 t2 now ctx groupId creator defs habsent] at hok ⊢
  obtain ⟨k, _, _, hnone, hcalls, _⟩ :=
    applyEvents_handed s lib w now ctx (createGroupDrafts groupId creator defs t1 t2)
  have hk2 : k = 2 := hnone hok
  subst hk2
  refine ⟨(createGroupDrafts groupId creator defs t1 t2).getD 0 {},
    (createGroupDrafts groupId creator defs t1 t2).getD 1 {},
    (stampEvent s lib { applyEventsSerial := w.applyEventsSerial }
      ((createGroupDrafts groupId creator defs t1 t2).getD 0 {})).2,
    (stampEvent s lib { applyEventsSerial := wrapInt64 (w.applyEventsSerial + 1) }
      ((createGroupDrafts groupId creator defs t1 t2).getD 1 {})).2,
    rfl, ?_, rfl, rfl, ?_, ?_, rfl, ?_, ?_⟩
  · rw [hcalls]
    rfl
  · exact stampEvent_Kind s lib _ _
  · exact stampEvent_Tags s lib _ _
  · exact stampEvent_Kind s lib _ _
  · exact stampEvent_Tags s lib _ _

/-- C4, at a concrete call: a new group on a relay that accepts every record. -/
theorem CreateGroup_hands_two_records_witness :
    (CreateGroup demoState demoLib {} 1000 1000 1000 [] "new" "creator" {}).1.calls.length = 2 := by
  obtain ⟨d1, d2, r1, r2, _, hcalls, _⟩ :=
    CreateGroup_hands_two_records demoState demoLib {} 1000 1000 1000 [] "new" "creator" {}
      (by decide) (by decide)
  rw [hcalls]
  rfl

/-- C5: the draft tag list of the edit-metadata record built by `CreateGroup`
is `[["h", groupId]]` followed, in this order and each only when its field is
present, by the name, about and picture tags, then `["closed"]` or `["open"]`,
then `["private"]` or `["public"]`; a present empty string or `false` still
contributes its tag. -/
theorem createGroupDrafts_metadata_tags (groupId creator : String) (defs : EditMetadata)
    (t1 t2 : Int) :
    ∃ d1 d2, createGroupDrafts groupId creator defs t1 t2 = [d1, d2] ∧
      d2.Kind = Kind.SimpleGroupEditMetadata ∧
      d2.Tags =
        [["h", groupId]] ++
          defs.NameValue.toList.map (fun v => ["name", v]) ++
          defs.AboutValue.toList.map (fun v => ["about", v]) ++
          defs.PictureValue.toList.map (fun v => ["picture", v]) ++
          defs.ClosedValue.toList.map (fun b => if b then ["closed"] else ["open"]) ++
          defs.PrivateValue.toList.map (fun b => if b then ["private"] else ["public"]) :=
  ⟨(createGroupDrafts groupId creator defs t1 t2).getD 0 {},
    (createGroupDrafts groupId creator defs t1 t2).getD 1 {}, rfl, rfl,
    metadataTags_layout groupId defs⟩

/-- C6: in the edit-metadata record that `CreateGroup` hands to the relay, a
present and true `ClosedValue` gives a tag `["closed"]` and no tag `["open"]`, a
present and false one gives `["open"]` and no `["closed"]`, and an absent one
gives neither, whatever the other fields hold. -/
theorem CreateGroup_closed_open_tag {γ : Type} (s : State γ) (lib : EventLib) (w : World)
    (t1 t2 now : Int) (ctx : Context) (groupId creator : String) (defs : EditMetadata)
    (r : Event)
    (hr : r ∈ handed w (CreateGroup s lib w t1 t2 now ctx groupId creator defs).1)
    (hkind : r.Kind = Kind.SimpleGroupEditMetadata) :
    (defs.ClosedValue = some true → ["closed"] ∈ r.Tags ∧ ["open"] ∉ r.Tags) ∧
      (defs.ClosedValue = some false → ["open"] ∈ r.Tags ∧ ["closed"] ∉ r.Tags) ∧
      (defs.ClosedValue = none → ["closed"] ∉ r.Tags ∧ ["open"] ∉ r.Tags) := by
  obtain ⟨d, hd, hst⟩ := mem_handed_CreateGroup s lib w t1 t2 now ctx groupId creator defs r hr
  simp only [createGroupDrafts, List.mem_cons, List.mem_singleton, List.not_mem_nil,
    or_false] at hd
  rcases hd with rfl | rfl
  · have := hst.2.1
    rw [hkind] at this
    cases this
  · have htags : r.Tags = metadataTags groupId defs ++ [["autogenerated"]] := hst.1
    rw [htags, metadataTags_layout]
    obtain ⟨n, a, p, pr, c⟩ := defs
    cases n <;> cases a <;> cases p <;> rcases c with _ | _ | _ <;>
      rcases pr with _ | _ | _ <;> simp

/-- C6, at a concrete call: the group "new" created closed. -/
theorem CreateGroup_closed_open_tag_witness :
    closedGroupRecord.Kind = Kind.SimpleGroupEditMetadata ∧
      ["closed"] ∈ closedGroupRecord.Tags ∧ ["open"] ∉ closedGroupRecord.Tags :=
  ⟨by decide,
    (CreateGroup_closed_open_tag demoState demoLib {} 1000 1000 1000 [] "new" "creator"
      { ClosedValue := some true } closedGroupRecord (by decide) (by decide)).1 rfl⟩

/-- C7 as stated does not hold: the one record that
`PutUser(groupId, "abc", "admin", "moderator")` hands to the relay has three
tags, the two of the draft and the marker tag, not exactly the two. -/
theorem PutUser_record_has_marker_tag :
    (handed {} (PutUser demoState demoLib {} 1000 1000 [] "g" "abc"
        ["admin", "moderator"]).1).map (fun r => r.Tags) =
      [[["h", "g"], ["p", "abc", "admin", "moderator"], ["autogenerated"]]] ∧
    (handed {} (PutUser demoState demoLib {} 1000 1000 [] "g" "abc"
        ["admin", "moderator"]).1).map (fun r => r.Tags) ≠
      [[["h", "g"], ["p", "abc", "admin", "moderator"]]] := by
  constructor <;> decide

/-- C7, amended: for every group id, public key and list of roles, `PutUser`
builds exactly one draft, of kind put-user, with tags exactly
`[["h", groupId], ["p", pubkey, role1, ..., roleN]]`, the roles verbatim and in
order, and hands exactly one record to the relay, of the same kind, whose tags
are those two followed by the marker tag `["autogenerated"]`. -/
theorem PutUser_one_record {γ : Type} (s : State γ) (lib : EventLib) (w : World)
    (t now : Int) (ctx : Context) (groupId pubkey : String) (roles : List String) :
    (∃ d, putUserDrafts groupId pubkey roles t = [d] ∧ d.Kind = Kind.SimpleGroupPutUser ∧
        d.Tags = [["h", groupId], "p" :: pubkey :: roles]) ∧
      ∃ r, (PutUser s lib w t now ctx groupId pubkey roles).1.calls =
          w.calls ++ [(ourCtx ctx, r)] ∧
        r.Kind = Kind.SimpleGroupPutUser ∧
        r.Tags = [["h", groupId], "p" :: pubkey :: roles, ["autogenerated"]] := by
  refine ⟨⟨_, rfl, rfl, rfl⟩, _,
    (applyEvents_single_handed s lib w now ctx _).1, stampEvent_Kind s lib _ _, ?_⟩
  rw [stampEvent_Tags]
  rfl

/-- C8: `PutUser`, `RemoveUserFromGroup` and `DeleteEvent` each hand exactly one
record to the relay, and `CreateGroup`, for a group the lookup reports absent,
hands at least its first and, when nothing fails, both; every record handed is,
position by position, one of the drafts the operation built: its tags are the
tags of the draft in their order followed by the one marker tag
`["autogenerated"]`, its kind and content are those of the draft, and its
signature is empty. -/
theorem public_operations_records_marked_unsigned {γ : Type} (s : State γ) (lib : EventLib)
    (w : World) (t1 t2 now : Int) (ctx : Context) (groupId creator pubkey eventId : String)
    (defs : EditMetadata) (roles : List String) :
    (List.Forall₂ MarkedUnsigned
        ((createGroupDrafts groupId creator defs t1 t2).take
          (handed w (CreateGroup s lib w t1 t2 now ctx groupId creator defs).1).length)
        (handed w (CreateGroup s lib w t1 t2 now ctx groupId creator defs).1) ∧
      (s.Groups groupId = none →
        1 ≤ (handed w (CreateGroup s lib w t1 t2 now ctx groupId creator defs).1).length ∧
        ((CreateGroup s lib w t1 t2 now ctx groupId creator defs).2 = none →
          (handed w (CreateGroup s lib w t1 t2 now ctx groupId creator defs).1).length = 2))) ∧
      List.Forall₂ MarkedUnsigned (putUserDrafts groupId pubkey roles t1)
        (handed w (PutUser s lib w t1 now ctx groupId pubkey roles).1) ∧
      List.Forall₂ MarkedUnsigned (removeUserDrafts groupId pubkey t1)
        (handed w (RemoveUserFromGroup s lib w t1 now ctx groupId pubkey).1) ∧
      List.Forall₂ MarkedUnsigned (deleteEventDrafts groupId eventId t1)
        (handed w (DeleteEvent s lib w t1 now ctx groupId eventId).1) := by
  refine ⟨⟨?_, ?_⟩, ?_, ?_, ?_⟩
  · cases hg : s.Groups groupId with
    | some g =>
      simp [CreateGroup, hg, handed_self]
    | none =>
      rw [CreateGroup_absent s lib w t1 t2 now ctx groupId creator defs hg]
      refine applyEvents_MarkedUnsigned s lib w now ctx _ ?_
      intro d hd
      simp only [createGroupDrafts, List.mem_cons, List.mem_singleton, List.not_mem_nil,
        or_false] at hd
      rcases hd with rfl | rfl <;> rfl
  · intro hg
    rw [CreateGroup_absent s lib w t1 t2 now ctx groupId creator defs hg]
    obtain ⟨k, hk, hne, hnone, _, hh⟩ :=
      applyEvents_handed s lib w now ctx (createGroupDrafts groupId creator defs t1 t2)
    have hlen : (handed w (applyEvents s lib w now ctx
        (createGroupDrafts groupId creator defs t1 t2)).1).length = k := by
      rw [hh, List.length_take, stampedRecords_length]
      exact Nat.min_eq_left hk
    rw [hlen]
    exact ⟨hne (by simp [createGroupDrafts]), fun hres => hnone hres⟩
  · exact applyEvents_single_MarkedUnsigned s lib w now ctx _ rfl
  · exact applyEvents_single_MarkedUnsigned s lib w now ctx _ rfl
  · exact applyEvents_single_MarkedUnsigned s lib w now ctx _ rfl

/-- C8, at concrete calls: the record of `PutUser("g", "abc", "admin")` and the
two records of a group creation, as the relay receives them. -/
theorem public_operations_records_marked_unsigned_witness :
    (handed {} (PutUser demoState demoLib {} 1000 1000 [] "g" "abc" ["admin"]).1).map
        (fun r => (r.Tags, r.Sig)) =
        [([["h", "g"], ["p", "abc", "admin"], ["autogenerated"]], "")] ∧
      (handed {} (CreateGroup demoState demoLib {} 1000 1000 1000 [] "new" "creator"
        {}).1).length = 2 := by
  obtain ⟨⟨_, hcreate⟩, _, _, _⟩ :=
    public_operations_records_marked_unsigned demoState demoLib {} 1000 1000 1000 []
      "new" "creator" "abc" "" {} ["admin"]
  refine ⟨?_, (hcreate (by decide)).2 (by decide)⟩
  decide

/-- C9 as stated does not hold: with the empty string as creator identity the
create-group record handed to the relay carries the relay's own public key, not
the creator passed in. -/
theorem CreateGroup_empty_creator_gets_relay_key :
    demoState.Groups "new" = none ∧
      (handed {} (CreateGroup demoState demoLib {} 1000 1000 1000 [] "new" "" {}).1).map
          (fun r => (r.Kind, r.PubKey)) =
        [(Kind.SimpleGroupCreateGroup, "relaykey"), (Kind.SimpleGroupEditMetadata, "relaykey")] ∧
      demoState.publicKey = "relaykey" ∧ demoState.publicKey ≠ "" := by
  refine ⟨?_, ?_, ?_, ?_⟩ <;> decide

/-- C9, amended: for a group the lookup reports absent, `CreateGroup` hands the
create-group record to the relay first, and that record's public key is the
creator identity passed in whenever that is not the empty string; with the empty
string it is the relay's own public key. No later record of the call is of kind
create-group. -/
theorem CreateGroup_record_pubkey {γ : Type} (s : State γ) (lib : EventLib) (w : World)
    (t1 t2 now : Int) (ctx : Context) (groupId creator : String) (defs : EditMetadata)
    (habsent : s.Groups groupId = none) :
    ∃ r rest, handed w (CreateGroup s lib w t1 t2 now ctx groupId creator defs).1 = r :: rest ∧
      r.Kind = Kind.SimpleGroupCreateGroup ∧
      (creator ≠ "" → r.PubKey = creator) ∧ (creator = "" → r.PubKey = s.publicKey) ∧
      ∀ r1 ∈ rest, r1.Kind ≠ Kind.SimpleGroupCreateGroup := by
  rw [CreateGroup_absent s lib w t1 t2 now ctx groupId creator defs habsent]
  obtain ⟨k, hk, hne, _, _, hh⟩ :=
    applyEvents_handed s lib w now ctx (createGroupDrafts groupId creator defs t1 t2)
  have hk1 : 1 ≤ k := hne (by simp [createGroupDrafts])
  obtain ⟨n, rfl⟩ : ∃ n, k = n + 1 := ⟨k - 1, by omega⟩
  rw [hh]
  simp only [createGroupDrafts, stampedRecords, List.take_succ_cons]
  refine ⟨_, _, rfl, stampEvent_Kind s lib _ _, ?_, ?_, ?_⟩
  · intro hc
    rw [stampEvent_PubKey]
    simp [hc]
  · intro hc
    rw [stampEvent_PubKey]
    simp [hc]
  · intro r1 hr1
    have hmem := List.mem_of_mem_take hr1
    simp only [List.mem_singleton] at hmem
    rw [hmem, stampEvent_Kind]
    simp

/-- C9, amended, at a concrete call: the creator "creator" creates the group "new". -/
theorem CreateGroup_record_pubkey_witness :
    ∃ r rest,
      handed {} (CreateGroup demoState demoLib {} 1000 1000 1000 [] "new" "creator" {}).1 =
        r :: rest ∧ r.PubKey = "creator" := by
  obtain ⟨r, rest, hh, _, hpk, _⟩ :=
    CreateGroup_record_pubkey demoState demoLib {} 1000 1000 1000 [] "new" "creator" {}
      (by decide)
  exact ⟨r, rest, hh, hpk (by decide)⟩

/-- C10: of every draft processed by `applyEvents`, the record handed to the
relay carries the relay's public key when the draft's `PubKey` is the empty
string and the draft's `PubKey` unchanged otherwise; so the edit-metadata record
of `CreateGroup` and the one record each of `PutUser`, `RemoveUserFromGroup` and
`DeleteEvent` carry the relay's public key. -/
theorem applyEvents_pubkey_default {γ : Type} (s : State γ) (lib : EventLib) (w : World)
    (t1 t2 now : Int) (ctx : Context) (events : List Event)
    (groupId creator pubkey eventId : String) (defs : EditMetadata) (roles : List String) :
    List.Forall₂
        (fun d r => (d.PubKey = "" → r.PubKey = s.publicKey) ∧
          (d.PubKey ≠ "" → r.PubKey = d.PubKey))
        (events.take (handed w (applyEvents s lib w now ctx events).1).length)
        (handed w (applyEvents s lib w now ctx events).1) ∧
      (∀ r ∈ handed w (CreateGroup s lib w t1 t2 now ctx groupId creator defs).1,
        r.Kind = Kind.SimpleGroupEditMetadata → r.PubKey = s.publicKey) ∧
      (∃ r, handed w (PutUser s lib w t1 now ctx groupId pubkey roles).1 = [r] ∧
        r.Kind = Kind.SimpleGroupPutUser ∧ r.PubKey = s.publicKey) ∧
      (∃ r, handed w (RemoveUserFromGroup s lib w t1 now ctx groupId pubkey).1 = [r] ∧
        r.Kind = Kind.SimpleGroupRemoveUser ∧ r.PubKey = s.publicKey) ∧
      (∃ r, handed w (DeleteEvent s lib w t1 now ctx groupId eventId).1 = [r] ∧
        r.Kind = Kind.SimpleGroupDeleteEvent ∧ r.PubKey = s.publicKey) := by
  refine ⟨?_, ?_, ?_, ?_, ?_⟩
  · refine (applyEvents_handed_forall2 s lib w now ctx events).imp ?_
    intro d r hst
    have hpk := hst.2.2.2.2
    constructor
    · intro hd
      rw [hpk, if_pos hd]
    · intro hd
      rw [hpk, if_neg hd]
  · intro r hr hkind
    obtain ⟨d, hd, hst⟩ :=
      mem_handed_CreateGroup s lib w t1 t2 now ctx groupId creator defs r hr
    simp only [createGroupDrafts, List.mem_cons, List.mem_singleton, List.not_mem_nil,
      or_false] at hd
    rcases hd with rfl | rfl
    · have := hst.2.1
      rw [hkind] at this
      cases this
    · exact hst.2.2.2.2
  · exact ⟨_, (applyEvents_single_handed s lib w now ctx _).2, stampEvent_Kind s lib _ _,
      by rw [stampEvent_PubKey]; rfl⟩
  · exact ⟨_, (applyEvents_single_handed s lib w now ctx _).2, stampEvent_Kind s lib _ _,
      by rw [stampEvent_PubKey]; rfl⟩
  · exact ⟨_, (applyEvents_single_handed s lib w now ctx _).2, stampEvent_Kind s lib _ _,
      by rw [stampEvent_PubKey]; rfl⟩

/-- C11: when the relay accepts the first `k - 1` submissions of a batch and
fails on the `k`-th (`1 ≤ k ≤ N`), `applyEvents` returns an error that wraps the
relay's error and names the `k`-th record, and the relay has been called exactly
`k` times: the log is the old log followed by the first `k` stamped records, so
records `1..k-1` stay, records `k+1..N` are never submitted, nothing is retried
or removed; the counter reset is not re-armed. -/
theorem applyEvents_fails_at_kth {γ : Type} (s : State γ) (lib : EventLib) (w : World)
    (now : Int) (ctx : Context) (events : List Event) (k : Nat) (rk : Event) (err : GoError)
    (hk : 1 ≤ k) (hkN : k ≤ events.length)
    (hrk : (stampedRecords s lib w.applyEventsSerial events)[k - 1]? = some rk)
    (haccept : ∀ i, i + 1 < k → ∀ r,
      (stampedRecords s lib w.applyEventsSerial events)[i]? = some r →
      s.AddEvent
        (w.calls ++ ((stampedRecords s lib w.applyEventsSerial events).take i).map
          (fun r => (ourCtx ctx, r))) (ourCtx ctx) r = none)
    (hfail : s.AddEvent
        (w.calls ++ ((stampedRecords s lib w.applyEventsSerial events).take (k - 1)).map
          (fun r => (ourCtx ctx, r))) (ourCtx ctx) rk = some err) :
    (applyEvents s lib w now ctx events).2 =
        some (GoError.wrap
          ("failed to apply event " ++ lib.EventString rk ++ ": " ++ err.Error) err) ∧
      ((applyEvents s lib w now ctx events).2.bind GoError.Unwrap) = some err ∧
      (applyEvents s lib w now ctx events).1.calls =
        w.calls ++ ((stampedRecords s lib w.applyEventsSerial events).take k).map
          (fun r => (ourCtx ctx, r)) ∧
      (applyEvents s lib w now ctx events).1.calls.length = w.calls.length + k ∧
      (applyEvents s lib w now ctx events).1.resetDeadline = w.resetDeadline := by
  obtain ⟨j, rfl⟩ : ∃ j, k = j + 1 := ⟨k - 1, by omega⟩
  simp only [Nat.add_sub_cancel] at hrk hfail
  obtain ⟨herr, hcalls⟩ := applyEventsLoop_fail_at s lib (ourCtx ctx) events w j rk err hrk
    (fun i hi r hr => haccept i (by omega) r hr) hfail
  have hres : (applyEvents s lib w now ctx events).2 =
      some (GoError.wrap
        ("failed to apply event " ++ lib.EventString rk ++ ": " ++ err.Error) err) := by
    unfold applyEvents
    rcases hloop : applyEventsLoop s lib (ourCtx ctx) w events with ⟨w1, _ | e1⟩ <;>
      simp only [hloop] at herr <;> simp only [ourCtx] at hloop
    · cases herr
    · simp [hloop, herr]
  have hw : (applyEvents s lib w now ctx events).1 =
      (applyEventsLoop s lib (ourCtx ctx) w events).1 := by
    unfold applyEvents
    rcases hloop : applyEventsLoop s lib (ourCtx ctx) w events with ⟨w1, _ | e1⟩ <;>
      simp only [hloop] at herr <;> simp only [ourCtx] at hloop
    · cases herr
    · simp [hloop]
  obtain ⟨_, _, _, _, _, hdl, _⟩ := applyEvents_spec s lib w now ctx events
  refine ⟨hres, ?_, ?_, ?_, ?_⟩
  · rw [hres]
    rfl
  · rw [hw, hcalls]
  · rw [hw, hcalls]
    simp only [List.length_append, List.length_map, List.length_take, stampedRecords_length]
    omega
  · rw [hdl, hres]
    simp

/-- C11, at a concrete batch: the two drafts of a group creation on a relay that
rejects the second record it receives. -/
theorem applyEvents_fails_at_kth_witness :
    ((applyEvents rejectSecond demoLib {} 1000 []
        (createGroupDrafts "new" "creator" {} 1000 1000)).2.bind GoError.Unwrap) =
        some (GoError.plain "rejected") ∧
      (applyEvents rejectSecond demoLib {} 1000 []
        (createGroupDrafts "new" "creator" {} 1000 1000)).1.calls.length = 2 := by
  obtain ⟨_, hunwrap, _, hlen, _⟩ :=
    applyEvents_fails_at_kth rejectSecond demoLib {} 1000 []
      (createGroupDrafts "new" "creator" {} 1000 1000) 2
      ((stampedRecords rejectSecond demoLib 0
        (createGroupDrafts "new" "creator" {} 1000 1000)).getD 1 {})
      (GoError.plain "rejected") (by decide) (by decide) (by decide)
      (by
        intro i hi r hr
        have hi0 : i = 0 := by omega
        subst hi0
        rfl)
      (by decide)
  exact ⟨hunwrap, hlen⟩

/-- C12 as stated does not hold: `staleTimerTicks` is an interleaving the code
allows (it is the sequential history `staleTimerHistory` on a relay that rejects
the second record), the timer that runs in second 1015 was armed in second 1000
and is due, and the offset 2 is received twice during second 1015, once before
and once after the reset. -/
theorem same_offset_twice_in_one_second :
    ticksMonotone 0 staleTimerTicks ∧
      tickRun rejectSecond demoLib {} staleTimerTicks =
        run rejectSecond demoLib {} staleTimerHistory ∧
      offsetLog rejectSecond demoLib {} staleTimerTicks =
        [(1000, 1), (1015, 2), (1015, 1), (1015, 2)] ∧
      ¬ (offsetLog rejectSecond demoLib {} staleTimerTicks).Nodup := by
  refine ⟨?_, ?_, ?_, ?_⟩
  · simp [ticksMonotone, staleTimerTicks]
  · decide
  · decide
  · decide

/-- C12, amended: in every interleaving of stamping steps, debouncer calls and
timer steps from process start in which the wall clock never goes backwards and
every counter reset comes in a later wall-clock second than the stamping steps
before it, no two records receive the same counter offset during the same
wall-clock second (fewer than `2 ^ 63` stamps, so that the counter does not
wrap). -/
theorem offsets_distinct_within_a_second {γ : Type} (s : State γ) (lib : EventLib)
    (ticks : List Tick) (clock : Int)
    (hclock : ticksMonotone clock ticks)
    (hresets : resetsAfterStamps none ticks)
    (hrange : (stampCount ticks : Int) < 2 ^ 63) :
    (offsetLog s lib {} ticks).Nodup := by
  have h := offsetLog_nodup s lib ticks {} clock none [] ?_ hclock hresets ?_
  · simpa using h
  · exact ⟨le_refl _, List.nodup_nil, fun p hp => by simp at hp, fun p hp => by simp at hp⟩
  · simpa using hrange

/-- C12, amended, at a concrete interleaving with a reset between two bursts. -/
theorem offsets_distinct_within_a_second_witness :
    offsetLog demoState demoLib {} quietTicks = [(1000, 1), (1000, 2), (1020, 1)] ∧
      (offsetLog demoState demoLib {} quietTicks).Nodup :=
  ⟨by decide,
    offsets_distinct_within_a_second demoState demoLib quietTicks 0
      (by simp [ticksMonotone, quietTicks])
      (by simp [resetsAfterStamps, quietTicks])
      (by decide)⟩

/-- C13 as stated does not hold. A call that fails at the relay returns before
the debouncer is called: after a call that returned nil in second 1000, the call
made in second 1014 fails and leaves the reset asked for second 1015, not 1029,
so the timer runs one second after the most recent `applyEvents` call and puts
the counter from 2 back to 0. A call in progress has not called the debouncer
yet, so the reset can run between the two stamps of one batch
(`midBatchTicks`, offsets 2 then 1). And `applyEvents` does nothing to hold back
a timer that expired while the call was in progress (`expiredTimerTicks`): the
counter is reset in the very second in which a call returned nil. -/
theorem reset_one_second_after_failed_call :
    (run rejectSecond demoLib {} failedCallHistory).resetDeadline = some 1015 ∧
      (run rejectSecond demoLib {} failedCallHistory).applyEventsSerial = 2 ∧
      (applyEvents rejectSecond demoLib
        (run rejectSecond demoLib {} (failedCallHistory.take 1)) 1014 []
        (putUserDrafts "g" "def" [] 1014)).2 ≠ none ∧
      (run rejectSecond demoLib {}
        (failedCallHistory ++ [Action.reset 1015])).applyEventsSerial = 0 ∧
      ticksMonotone 0 midBatchTicks ∧
      offsetLog demoState demoLib {} midBatchTicks = [(1000, 1), (1015, 2), (1015, 1)] ∧
      ticksMonotone 0 expiredTimerTicks ∧
      (tickRun demoState demoLib {} (expiredTimerTicks.take 4)).applyEventsSerial = 2 ∧
      (tickRun demoState demoLib {} (expiredTimerTicks.take 4)).resetDeadline = some 1030 ∧
      (tickRun demoState demoLib {} expiredTimerTicks).applyEventsSerial = 0 := by
  refine ⟨?_, ?_, ?_, ?_, ?_, ?_, ?_, ?_, ?_, ?_⟩
  · decide
  · decide
  · decide
  · decide
  · simp [ticksMonotone, midBatchTicks]
  · decide
  · simp [ticksMonotone, expiredTimerTicks]
  · decide
  · decide
  · decide

/-- C13, amended: an `applyEvents` call that returns nil calls the debouncer,
once and as its last step after the passes of its loop, so that the latest
request to the debouncer then asks for the reset 15 seconds after that step; a
call that fails at the relay makes some of the passes of its loop, does not call
the debouncer and leaves the latest request as it was; and the function handed
to the debouncer sets the counter to zero and changes nothing else. When the
timer runs that function is left to the debouncer. -/
theorem debouncer_called_after_nil_return_only {γ : Type} (s : State γ) (lib : EventLib)
    (w : World) (now : Int) (ctx : Context) (events : List Event) :
    ((applyEvents s lib w now ctx events).2 = none →
        (applyEvents s lib w now ctx events).1.resetDeadline = some (now + debounceSeconds)) ∧
      ((applyEvents s lib w now ctx events).2 ≠ none →
        (applyEvents s lib w now ctx events).1.resetDeadline = w.resetDeadline) ∧
      (∃ k : Nat, k ≤ events.length ∧
        (applyEvents s lib w now ctx events).1 =
          tickRun s lib w
            (callTicks ctx events now k (applyEvents s lib w now ctx events).2.isNone)) ∧
      (fireReset w).applyEventsSerial = 0 ∧ (fireReset w).calls = w.calls ∧
      (fireReset w).resetDeadline = w.resetDeadline := by
  obtain ⟨_, _, _, _, _, hdl, _⟩ := applyEvents_spec s lib w now ctx events
  refine ⟨?_, ?_, applyEvents_eq_tickRun s lib w now ctx events, rfl, rfl, rfl⟩
  · intro hres
    rw [hdl]
    simp [hres]
  · intro hres
    rw [hdl]
    simp [hres]

/-- C13, amended, at two concrete calls: the first returns nil in second 1000
and asks for the reset in second 1015; the second fails in second 1014 and
leaves that request. -/
theorem debouncer_called_after_nil_return_only_witness :
    (applyEvents rejectSecond demoLib {} 1000 []
        (putUserDrafts "g" "abc" [] 1000)).1.resetDeadline = some 1015 ∧
      (applyEvents rejectSecond demoLib
        (run rejectSecond demoLib {} (failedCallHistory.take 1)) 1014 []
        (putUserDrafts "g" "def" [] 1014)).1.resetDeadline = some 1015 :=
  ⟨(debouncer_called_after_nil_return_only rejectSecond demoLib {} 1000 []
      (putUserDrafts "g" "abc" [] 1000)).1 (by decide),
    ((debouncer_called_after_nil_return_only rejectSecond demoLib
      (run rejectSecond demoLib {} (failedCallHistory.take 1)) 1014 []
      (putUserDrafts "g" "def" [] 1014)).2.1 (by decide)).trans (by decide)⟩

/-- C14 as stated does not hold: a call that fails at the relay does not call
the debouncer, so the reset asked by an earlier call can run between the failed
attempt and its retry. `PutUser("g", "abc", "admin")` is called in second 1014,
stamped with offset 2 and rejected; the reset asked for second 1015 by the call
that returned nil in second 1000 runs; the retry with the same arguments in
second 1015 is stamped with offset 1. Both records have `CreatedAt` 1016, and
for every `GetID` the record of the retry is the record of the failed attempt,
identifier included. -/
theorem retry_after_reset_mints_same_record :
    (PutUser rejectSecond demoLib (beforeFailedPutUser demoLib) 1014 1014 [] "g" "abc"
        ["admin"]).2 ≠ none ∧
      (afterFailedPutUser demoLib).resetDeadline = some 1015 ∧
      (handed (beforeFailedPutUser demoLib) (afterFailedPutUser demoLib)).map
        (fun r => r.CreatedAt) = [1016] ∧
      (handed (beforeRetry demoLib) (afterRetry demoLib)).map (fun r => r.CreatedAt) = [1016] ∧
      (∀ lib : EventLib,
        handed (beforeRetry lib) (afterRetry lib) =
          handed (beforeFailedPutUser lib) (afterFailedPutUser lib)) := by
  refine ⟨?_, ?_, ?_, ?_, ?_⟩
  · decide
  · decide
  · decide
  · decide
  · intro lib
    have h0 : (beforeFailedPutUser lib).applyEventsSerial = 1 := by
      simp [beforeFailedPutUser, PutUser, putUserDrafts, applyEvents_single_world]
      decide
    have h1 : (beforeRetry lib).applyEventsSerial = 0 := rfl
    simp only [afterRetry, afterFailedPutUser, PutUser, putUserDrafts,
      (applyEvents_single_handed rejectSecond lib _ _ _ _).2]
    simp only [stampEvent, h0, h1]
    have hc : wrapInt64 (1015 + wrapInt64 1) = wrapInt64 (1014 + wrapInt64 2) := by
      decide
    simp [hc]

/-- C14, amended: when no reset runs between the stamping step of a failed
attempt and the stamping step of its retry, and the draft of the retry was built
no earlier than the draft of the attempt, the record of the retry has a
`CreatedAt` strictly above that of the record of the attempt, whatever else was
stamped in between; so the two records differ in a field the identifier is
computed from, and their identifiers differ whenever `GetID` gives different
identifiers to different `CreatedAt` values. The counter and the timestamps are
taken in the range where `int64` addition does not wrap. -/
theorem retry_mints_later_createdAt {γ : Type} (s : State γ) (lib : EventLib) (w : World)
    (t1 t2 : Int) (ctx1 ctx2 : Context) (e1 e2 : Event) (mid : List Tick)
    (hnoreset : ∀ t, Tick.reset t ∉ mid)
    (hbuilt : e1.CreatedAt ≤ e2.CreatedAt)
    (hserial : 0 ≤ w.applyEventsSerial) (hnonneg : 0 ≤ e1.CreatedAt)
    (hrange : e2.CreatedAt + w.applyEventsSerial + (stampCount mid : Int) + 2 < 2 ^ 63) :
    ∀ a ∈ handed w (tickStep s lib w (Tick.stamp t1 ctx1 e1)),
      ∀ b ∈ handed (tickRun s lib (tickStep s lib w (Tick.stamp t1 ctx1 e1)) mid)
          (tickStep s lib (tickRun s lib (tickStep s lib w (Tick.stamp t1 ctx1 e1)) mid)
            (Tick.stamp t2 ctx2 e2)),
        a.CreatedAt < b.CreatedAt ∧
          ((∀ x y : Event, 0 ≤ x.CreatedAt → 0 ≤ y.CreatedAt →
              lib.GetID x = lib.GetID y → x.CreatedAt = y.CreatedAt) → a.ID ≠ b.ID) := by
  intro a ha b hb
  rw [handed_tickStep_stamp, List.mem_singleton] at ha hb
  have hcnt : (0 : Int) ≤ (stampCount mid : Int) := Int.ofNat_nonneg _
  have hw1 : wrapInt64 (w.applyEventsSerial + 1) = w.applyEventsSerial + 1 :=
    wrapInt64_of_inRange _ (by norm_num; omega) (by omega)
  have hser1 : (tickStep s lib w (Tick.stamp t1 ctx1 e1)).applyEventsSerial =
      w.applyEventsSerial + 1 := by
    rw [tickStep_stamp_serial, hw1]
  have hser2 := tickRun_serial_of_no_reset s lib mid
    (tickStep s lib w (Tick.stamp t1 ctx1 e1)) hnoreset (by omega) (by omega)
  rw [hser1] at hser2
  have ha1 : a.CreatedAt = e1.CreatedAt + (w.applyEventsSerial + 1) := by
    rw [ha, stampEvent_CreatedAt, hw1]
    exact wrapInt64_of_inRange _ (by norm_num; omega) (by omega)
  have hb1 : b.CreatedAt = e2.CreatedAt + (w.applyEventsSerial + 1 + stampCount mid + 1) := by
    rw [hb, stampEvent_CreatedAt, hser2]
    rw [wrapInt64_of_inRange (w.applyEventsSerial + 1 + (stampCount mid : Int) + 1)
      (by norm_num; omega) (by omega)]
    exact wrapInt64_of_inRange _ (by norm_num; omega) (by omega)
  have hlt : a.CreatedAt < b.CreatedAt := by omega
  refine ⟨hlt, ?_⟩
  intro hdistinct hid
  have hida : a.ID = lib.GetID { a with ID := e1.ID } := by
    rw [ha]
    exact stampEvent_ID s lib _ e1
  have hidb : b.ID = lib.GetID { b with ID := e2.ID } := by
    rw [hb]
    exact stampEvent_ID s lib _ e2
  rw [hida, hidb] at hid
  have := hdistinct _ _ (by simp only; omega) (by simp only; omega) hid
  simp only at this
  omega

/-- C14, amended, at a concrete retry: `PutUser("g", "abc", "admin")` fails at the
relay in second 1014 and is retried in second 1016, the reset having not run;
with identifiers that tell `CreatedAt` values apart the retry gets a new one. -/
theorem retry_mints_later_createdAt_witness :
    (applyEventsLoop rejectSecond unaryLib (ourCtx []) (beforeFailedPutUser unaryLib)
        (putUserDrafts "g" "abc" ["admin"] 1014)).2 ≠ none ∧
      ∀ a ∈ handed (beforeFailedPutUser unaryLib)
          (tickStep rejectSecond unaryLib (beforeFailedPutUser unaryLib)
            (Tick.stamp 1014 [] ((putUserDrafts "g" "abc" ["admin"] 1014).getD 0 {}))),
        ∀ b ∈ handed
            (tickRun rejectSecond unaryLib
              (tickStep rejectSecond unaryLib (beforeFailedPutUser unaryLib)
                (Tick.stamp 1014 [] ((putUserDrafts "g" "abc" ["admin"] 1014).getD 0 {})))
              [])
            (tickStep rejectSecond unaryLib
              (tickRun rejectSecond unaryLib
                (tickStep rejectSecond unaryLib (beforeFailedPutUser unaryLib)
                  (Tick.stamp 1014 [] ((putUserDrafts "g" "abc" ["admin"] 1014).getD 0 {})))
                [])
              (Tick.stamp 1016 [] ((putUserDrafts "g" "abc" ["admin"] 1016).getD 0 {}))),
          a.CreatedAt < b.CreatedAt ∧ a.ID ≠ b.ID := by
  refine ⟨by decide, ?_⟩
  intro a ha b hb
  have h := retry_mints_later_createdAt rejectSecond unaryLib (beforeFailedPutUser unaryLib)
    1014 1016 [] [] ((putUserDrafts "g" "abc" ["admin"] 1014).getD 0 {})
    ((putUserDrafts "g" "abc" ["admin"] 1016).getD 0 {}) []
    (by simp) (by decide) (by decide) (by decide) (by decide) a ha b hb
  exact ⟨h.1, h.2 unaryLib_distinct⟩

/-- C15: every record handed to the relay carries as `ID` the `GetID` of that
very record: `GetID` is applied to the record with its marker-extended tags, its
stamped `CreatedAt` and its defaulted `PubKey` already in place and only the
draft's `ID` not yet replaced, and nothing but `ID` is set afterwards. `GetID`
is go-nostr's and is taken to be derived from the content, that is not to depend
on the `ID` field. -/
theorem handed_record_ID_is_GetID {γ : Type} (s : State γ) (lib : EventLib) (w : World)
    (now : Int) (ctx : Context) (events : List Event)
    (hcontent : ∀ (e : Event) (x : String), lib.GetID { e with ID := x } = lib.GetID e) :
    ∀ r ∈ handed w (applyEvents s lib w now ctx events).1,
      r.ID = lib.GetID r ∧
        ∃ d ∈ events, StampedFrom s d r ∧ r.ID = lib.GetID { r with ID := d.ID } := by
  intro r hr
  obtain ⟨d, hd, hst, hid⟩ := mem_handed_applyEvents_ID s lib w now ctx events r hr
  refine ⟨?_, d, hd, hst, hid⟩
  rw [hid]
  exact hcontent r d.ID

/-- C15, at a concrete call: the one record of a `PutUser` call. -/
theorem handed_record_ID_is_GetID_witness :
    ∃ r, handed {} (applyEvents demoState demoLib {} 1000 []
        (putUserDrafts "g" "abc" ["admin"] 1000)).1 = [r] ∧ r.ID = demoLib.GetID r := by
  refine ⟨_, (applyEvents_single_handed demoState demoLib {} 1000 [] _).2, ?_⟩
  exact (handed_record_ID_is_GetID demoState demoLib {} 1000 []
    (putUserDrafts "g" "abc" ["admin"] 1000) (fun _ _ => rfl) _ (by
      rw [putUserDrafts, (applyEvents_single_handed demoState demoLib {} 1000 [] _).2]
      exact List.mem_singleton_self _)).1

/-- C16 as stated does not hold in its second half: the marker's key is the
plain value `struct{}{}`, and keys are compared as values, so on a context where
other code has bound a value under a key equal to `struct{}{}` and on which
`applyEvents` never set its marker, `IsInternalCall` is true. -/
theorem IsInternalCall_true_on_foreign_binding :
    (internalCallContextKey, some CtxVal.emptyStruct) ∉ foreignCtx ∧
      IsInternalCall foreignCtx = true := by
  constructor <;> decide

/-- C16, amended: whatever the caller context, one without any marker included,
every call `applyEvents` makes to the relay passes the context
`WithValue(ctx, internalCallContextKey, struct{}{})`, a call with at least one
draft makes at least one such call, and `IsInternalCall` is true on that
context; `IsInternalCall` is false on every context in which no value is bound
under a key equal to `struct{}{}`. -/
theorem applyEvents_marks_internal_call {γ : Type} (s : State γ) (lib : EventLib) (w : World)
    (now : Int) (ctx : Context) (events : List Event) :
    (applyEvents s lib w now ctx events).1.calls =
        w.calls ++ (handed w (applyEvents s lib w now ctx events).1).map
          (fun r => (ctx.WithValue internalCallContextKey (some CtxVal.emptyStruct), r)) ∧
      (events ≠ [] → handed w (applyEvents s lib w now ctx events).1 ≠ []) ∧
      IsInternalCall (ctx.WithValue internalCallContextKey (some CtxVal.emptyStruct)) = true ∧
      (∀ other : Context, (∀ b ∈ other, b.1 ≠ internalCallContextKey) →
        IsInternalCall other = false) := by
  obtain ⟨k, hk, hne, _, hcalls, hh⟩ := applyEvents_handed s lib w now ctx events
  refine ⟨?_, ?_, ?_, ?_⟩
  · rw [hh, hcalls]
    rfl
  · intro hev hnil
    have hlen : ((stampedRecords s lib w.applyEventsSerial events).take k).length = k := by
      rw [List.length_take, stampedRecords_length]
      exact Nat.min_eq_left hk
    rw [hh] at hnil
    rw [hnil] at hlen
    have := hne hev
    simp at hlen
    omega
  · simp [IsInternalCall, Context.WithValue, Context.Value]
  · intro other hother
    simp [IsInternalCall, Context_Value_of_unbound other _ hother]

/-- C16, amended, at a concrete call: `PutUser` called with the background
context, which carries no marker. -/
theorem applyEvents_marks_internal_call_witness :
    IsInternalCall [] = false ∧
      (PutUser demoState demoLib {} 1000 1000 [] "g" "abc" ["admin"]).1.calls.map
        (fun c => IsInternalCall c.1) = [true] := by
  obtain ⟨hcalls, _, hmark, hunmarked⟩ :=
    applyEvents_marks_internal_call demoState demoLib {} 1000 []
      (putUserDrafts "g" "abc" ["admin"] 1000)
  refine ⟨hunmarked [] (by simp), ?_⟩
  have hp : (PutUser demoState demoLib {} 1000 1000 [] "g" "abc" ["admin"]).1.calls =
      (applyEvents demoState demoLib {} 1000 []
        (putUserDrafts "g" "abc" ["admin"] 1000)).1.calls := rfl
  rw [hp, hcalls]
  have hone := (applyEvents_single_handed demoState demoLib {} 1000 []
    { Kind := Kind.SimpleGroupPutUser, CreatedAt := 1000,
      Tags := [["h", "g"], "p" :: "abc" :: ["admin"]] }).2
  have hd : putUserDrafts "g" "abc" ["admin"] 1000 =
      [{ Kind := Kind.SimpleGroupPutUser, CreatedAt := 1000,
         Tags := [["h", "g"], "p" :: "abc" :: ["admin"]] }] := rfl
  rw [hd, hone]
  simp [hmark]

/-- C17: `RemoveUserFromGroup` builds exactly one draft, of kind remove-user,
whose tags are exactly `[["h", groupId], ["p", pubkey]]`, the p tag carrying no
role, and hands that one draft to `applyEvents`. -/
theorem RemoveUserFromGroup_one_draft {γ : Type} (s : State γ) (lib : EventLib) (w : World)
    (t now : Int) (ctx : Context) (groupId pubkey : String) :
    ∃ d, removeUserDrafts groupId pubkey t = [d] ∧
      d.Kind = Kind.SimpleGroupRemoveUser ∧
      d.Tags = [["h", groupId], ["p", pubkey]] ∧
      RemoveUserFromGroup s lib w t now ctx groupId pubkey =
        applyEvents s lib w now ctx [d] :=
  ⟨_, rfl, rfl, rfl, rfl⟩

/-- C18: `DeleteEvent` builds exactly one draft, of kind delete-event, whose
tags are exactly `[["h", groupId], ["e", eventId]]`, and hands that one draft to
`applyEvents`. -/
theorem DeleteEvent_one_draft {γ : Type} (s : State γ) (lib : EventLib) (w : World)
    (t now : Int) (ctx : Context) (groupId eventId : String) :
    ∃ d, deleteEventDrafts groupId eventId t = [d] ∧
      d.Kind = Kind.SimpleGroupDeleteEvent ∧
      d.Tags = [["h", groupId], ["e", eventId]] ∧
      DeleteEvent s lib w t now ctx groupId eventId = applyEvents s lib w now ctx [d] :=
  ⟨_, rfl, rfl, rfl, rfl⟩

/-- C19: in every state reached from process start by an interleaving of
stamping steps, debouncer calls and timer steps, the counter, which starts at
zero, is the number of drafts stamped since the most recent reset, whether or
not the relay accepted them (each stamped draft is one call in the relay's
log); the offset each record receives, which is what is added to its
`CreatedAt`, is its 1-based position among the drafts stamped since that reset;
and the counter is at most the number of stamps. Fewer than `2 ^ 63` stamps are
assumed, so that the counter does not wrap. -/
theorem counter_is_stamps_since_reset {γ : Type} (s : State γ) (lib : EventLib)
    (ticks : List Tick) (hrange : (stampCount ticks : Int) < 2 ^ 63) :
    ({} : World).applyEventsSerial = 0 ∧
      (tickRun s lib {} ticks).applyEventsSerial = stampsSinceReset s lib {} 0 ticks ∧
      (offsetLog s lib {} ticks).map Prod.snd = positionLog s lib {} 0 ticks ∧
      stampsSinceReset s lib {} 0 ticks ≤ stampCount ticks ∧
      (tickRun s lib {} ticks).calls.length = stampCount ticks ∧
      (∀ (w : World) (e : Event),
        (stampEvent s lib w e).2.CreatedAt =
          wrapInt64 (e.CreatedAt + (stampEvent s lib w e).1.applyEventsSerial)) := by
  obtain ⟨h1, h2, h3, h4⟩ := counter_counts_stamps s lib ticks {} 0 rfl (by simpa using hrange)
  refine ⟨rfl, h1, h2, by simpa using h3, by simpa using h4, ?_⟩
  intro w e
  rw [stampEvent_CreatedAt, stampEvent_world]

/-- C19, at a concrete interleaving in which one submission fails and the timer
runs once. -/
theorem counter_is_stamps_since_reset_witness :
    (tickRun rejectSecond demoLib {} staleTimerTicks).applyEventsSerial = 2 ∧
      stampsSinceReset rejectSecond demoLib {} 0 staleTimerTicks = 2 ∧
      positionLog rejectSecond demoLib {} 0 staleTimerTicks = [1, 2, 1, 2] := by
  obtain ⟨_, h1, _, _, _, _⟩ :=
    counter_is_stamps_since_reset rejectSecond demoLib staleTimerTicks (by decide)
  refine ⟨?_, by decide, by decide⟩
  rw [h1]
  decide

end Relay29
